import Mathlib

/-!
Verification development for the `sticker-convert` Koishi plugin
(`src/index.ts`).  The plugin maintains a per-channel archive of media
items: each item is fingerprinted from its raw bytes (md5 hash, magic-byte
mime detection), stored as a blob file plus a database row, deduplicated by
`(channelId, md5)`, bounded by a configured capacity with oldest-first
eviction, and delivered back with a file-mode → embedded-image fallback.

The embedding below is a direct shallow translation of the TypeScript
source.  Asynchronous I/O becomes explicit state passing over `StoreState`:
the database table is a list of rows (insertion order, auto-increment id),
the blob filesystem is an association list from path to bytes, and wall
clock timestamps become a logical clock `now` that advances at each row
insertion (the source stamps `createdAt: new Date()` once per insert, so
successive inserts of a sequential run carry strictly increasing times).
Message delivery (`session.send` / `sendFileWithName`) is external I/O; it
is modelled by oracle booleans saying whether the file-based send and the
embedded-image send succeed, and by a log of the payloads handed to the
transport.  The md5 digest is an abstract parameter `hash : Bytes → String`
(the source calls `createHash('md5')...digest('hex')`).
-/

namespace StickerConvert

/-- Raw byte content of a media item (`Buffer` in the source); each entry
is one byte value. -/
abbrev Bytes := List Nat

/-- The two delivery modes of the config: `'buffer'` (send inline) and
`'file'` (send as a named file). -/
inductive TransferMode where
  | buffer
  | file
deriving DecidableEq

/-- Plugin configuration (`Config` interface in the source). -/
structure Config where
  enableAlbum : Bool
  albumEnabledGroups : List String
  albumMaxSize : Nat
  albumShowImages : Bool
  deletePermissionLevel : Nat
  staticImageMode : TransferMode
  gifMode : TransferMode
  fileTransferMode : TransferMode
  debug : Bool
deriving DecidableEq

/-- The parts of a Koishi `Session` the plugin inspects: direct-message
flag, presence of `session.author`, the author's role list, and the
channel/user identity. -/
structure SessionInfo where
  isDirect : Bool
  hasAuthor : Bool
  roles : List String
  channelId : String
  userId : String
deriving DecidableEq

/-- One row of the `sticker_archive` table (`StickerRecord` in the
source).  `createdAt` is a logical timestamp. -/
structure StickerRecord where
  id : Nat
  channelId : String
  md5 : String
  ext : String
  mime : String
  size : Nat
  isGif : Bool
  fileName : String
  filePath : String
  uploaderId : String
  sourceMessageId : String
  createdAt : Nat
deriving DecidableEq

/-- Whole persistent state: the database table (insertion order, with the
auto-increment counter `nextId`), the blob filesystem as a path ↦ bytes
association list, and the logical clock. -/
structure StoreState where
  table : List StickerRecord
  nextId : Nat
  fs : List (String × Bytes)
  now : Nat
deriving DecidableEq

/-- Initial state: empty table (auto-increment ids start at 1), empty blob
directory. -/
def emptyState : StoreState := { table := [], nextId := 1, fs := [], now := 0 }

/-! ### Blob filesystem primitives -/

/-- Model of `readFile`: look a path up in the blob store. -/
def fsRead (fs : List (String × Bytes)) (p : String) : Option Bytes :=
  (fs.find? (fun e => e.1 == p)).map (·.2)

/-- Model of `createWriteStream` + write + end: create or overwrite the file at
`p` with content `b`. -/
def fsWrite (fs : List (String × Bytes)) (p : String) (b : Bytes) : List (String × Bytes) :=
  (p, b) :: fs.filter (fun e => e.1 != p)

/-- Model of `unlinkSync` (the source always guards it with `existsSync`, so the
unguarded idempotent delete has the same effect). -/
def fsDelete (fs : List (String × Bytes)) (p : String) : List (String × Bytes) :=
  fs.filter (fun e => e.1 != p)

/-- Model of `existsSync` on the blob store. -/
def fsExists (fs : List (String × Bytes)) (p : String) : Bool :=
  fs.any (fun e => e.1 == p)

/-! ### Content fingerprinting (`downloadImage`, `getExtFromMime`) -/

/-- Magic-byte mime detection from `downloadImage`.  The source takes the
hex string of the first four bytes and tests
`startsWith('89504e47')` (PNG), `startsWith('ffd8ff')` (JPEG, three bytes),
`startsWith('47494638')` (GIF), and finally compares
`buffer.toString('ascii', 0, 4) === 'RIFF'` (WEBP).  Node's `'ascii'`
decoding clears the high bit of every byte, so the RIFF comparison tests
each of the first four bytes modulo 128.  Fewer than four bytes: the guard
`buffer.length >= 4` fails and the type stays `'image/unknown'`. -/
def detectMime (b : Bytes) : String :=
  match b with
  | b0 :: b1 :: b2 :: b3 :: _ =>
    if b0 = 137 ∧ b1 = 80 ∧ b2 = 78 ∧ b3 = 71 then "image/png"
    else if b0 = 255 ∧ b1 = 216 ∧ b2 = 255 then "image/jpeg"
    else if b0 = 71 ∧ b1 = 73 ∧ b2 = 70 ∧ b3 = 56 then "image/gif"
    else if b0 % 128 = 82 ∧ b1 % 128 = 73 ∧ b2 % 128 = 70 ∧ b3 % 128 = 70 then "image/webp"
    else "image/unknown"
  | _ => "image/unknown"

/-- Translation of `getExtFromMime`: static mime ↦ extension map with default `'jpg'`. -/
def getExtFromMime (mime : String) : String :=
  if mime = "image/png" then "png"
  else if mime = "image/jpeg" then "jpg"
  else if mime = "image/gif" then "gif"
  else if mime = "image/webp" then "webp"
  else "jpg"

/-! ### Blob naming (`saveFile`) -/

/-- File name from `saveFile`:
`${new Date().toISOString().split('T')[0]}-${md5}.${ext}` — calendar date,
digest, extension; the channel does not appear. -/
def savedFileName (date md5 ext : String) : String :=
  date ++ "-" ++ md5 ++ "." ++ ext

/-- Full blob path `resolve(storageDir, fileName)`. -/
def savedFilePath (storageDir date md5 ext : String) : String :=
  storageDir ++ "/" ++ savedFileName date md5 ext

/-! ### Permission gate (`checkUserPermission`, `hasDeletePermission`) -/

/-- Translation of `checkUserPermission`: private context or missing author ⇒ 1;
otherwise first match of owner/admin/trusted in that order, default 1. -/
def checkUserPermission (sess : SessionInfo) : Nat :=
  if sess.isDirect || !sess.hasAuthor then 1
  else if sess.roles.contains "owner" then 4
  else if sess.roles.contains "admin" then 3
  else if sess.roles.contains "trusted" then 2
  else 1

/-- Translation of `hasDeletePermission`: `userLevel >= config.deletePermissionLevel`. -/
def hasDeletePermission (cfg : Config) (sess : SessionInfo) : Bool :=
  cfg.deletePermissionLevel ≤ checkUserPermission sess

/-- Translation of `isAlbumEnabledForGroup`: feature toggle plus allowlist (empty list
enables every group). -/
def isAlbumEnabledForGroup (cfg : Config) (channelId : String) : Bool :=
  cfg.enableAlbum && (cfg.albumEnabledGroups.isEmpty || cfg.albumEnabledGroups.contains channelId)

/-! ### Database queries -/

/-- Rows of one channel, in table (insertion) order — the unordered
`where({ channelId })` select. -/
def channelRecords (s : StoreState) (ch : String) : List StickerRecord :=
  s.table.filter (fun r => r.channelId == ch)

/-- Rows of one channel with one md5 — the dedup lookup
`database.get('sticker_archive', { channelId, md5 })`. -/
def channelHashRecords (s : StoreState) (ch : String) (md5 : String) : List StickerRecord :=
  s.table.filter (fun r => r.channelId == ch && r.md5 == md5)

/-- One insertion step of sorting by `createdAt` descending: place `r`
before the first element whose timestamp is not larger. -/
def insertDesc (r : StickerRecord) : List StickerRecord → List StickerRecord
  | [] => [r]
  | x :: xs => if x.createdAt ≤ r.createdAt then r :: x :: xs else x :: insertDesc r xs

/-- The query modifier `orderBy('createdAt', 'desc')`: sort by creation time, newest first
(insertion sort; the database leaves the order of equal timestamps
unspecified, and in the sequential model timestamps are distinct). -/
def sortByCreatedAtDesc (l : List StickerRecord) : List StickerRecord :=
  l.foldr insertDesc []

/-- The newest-first listing of one channel used by `viewAlbum`,
`sendEmoji`, `deleteEmoji` and `checkAndCleanAlbum`. -/
def newestFirst (s : StoreState) (ch : String) : List StickerRecord :=
  sortByCreatedAtDesc (channelRecords s ch)

/-! ### Delivery dispatch

`sendFileWithName` and `session.send(h.image ...)` are transport I/O.  They
are modelled by two oracle booleans — does the file-based send succeed,
does the embedded-image send succeed — plus a log of the payloads handed to
the transport.  (In `'buffer'` transfer mode `sendFileWithName` also writes
a `temp_...` file and deletes it 5 s later; that ephemeral file never
carries a `sticker_archive` row and never collides with a blob name, so the
blob-store model omits it.) -/

/-- One payload handed to the transport: a named file carrying the bytes,
or an inline image with a mime type. -/
inductive Send where
  | file (bytes : Bytes) (fileName : String) (path : Option String)
  | image (bytes : Bytes) (mime : String)
deriving DecidableEq

/-- The per-item result line pushed by `convertEmoji` / `convertEmojiOnly`
(one constructor per `results.push` site). -/
inductive Outcome where
  | invalidUrl
  | duplicate (id : Nat)
  | gifFile (fileName : String)
  | gifDegraded
  | gifImage
  | staticFile (fileName : String)
  | staticDegraded
  | staticImage
  | failed
deriving DecidableEq

/-- The literal text pushed for each outcome (for `failed` the source
appends `error.message`; only the fixed prefix is rendered here).  Note
that the degraded static line coincides with the embedded static line,
exactly as in the source. -/
def renderLine : Outcome → String
  | .invalidUrl => "⚠️ 发现无效图片链接"
  | .duplicate id => "📁 此表情已存在相册中（编号 " ++ toString id ++ "）"
  | .gifFile n => "🎞️ GIF 已转为文件: " ++ n
  | .gifDegraded => "🎞️ GIF 已转换（作为图片发送）"
  | .gifImage => "🎞️ GIF 已转换为图片"
  | .staticFile n => "📁 图片已转为文件: " ++ n
  | .staticDegraded => "🖼️ 图片已转换"
  | .staticImage => "🖼️ 图片已转换"
  | .failed => "❌ 转存失败: "

/-- Result of the delivery block. -/
structure DeliveryResult where
  delivered : Bool
  tag : Outcome
  sends : List Send
deriving DecidableEq

/-- The send block shared by `convertEmoji` and `convertEmojiOnly`: pick
the configured mode for the item's kind; in `'file'` mode try the named
file first and on an exception fall back to the embedded image (the GIF
branch hard-codes `'image/gif'`, the static branch reuses the detected
mime); if the embedded send also throws, the exception escapes to the
per-item catch (`delivered = false`). -/
def deliverStored (cfg : Config) (isGif : Bool) (mime : String) (c : Bytes)
    (fileName : String) (filePath : Option String) (fileSendOk embedOk : Bool) :
    DeliveryResult :=
  if isGif then
    if cfg.gifMode = .file then
      if fileSendOk then ⟨true, .gifFile fileName, [.file c fileName filePath]⟩
      else if embedOk then ⟨true, .gifDegraded, [.image c "image/gif"]⟩
      else ⟨false, .failed, []⟩
    else
      if embedOk then ⟨true, .gifImage, [.image c "image/gif"]⟩
      else ⟨false, .failed, []⟩
  else
    if cfg.staticImageMode = .file then
      if fileSendOk then ⟨true, .staticFile fileName, [.file c fileName filePath]⟩
      else if embedOk then ⟨true, .staticDegraded, [.image c mime]⟩
      else ⟨false, .failed, []⟩
    else
      if embedOk then ⟨true, .staticImage, [.image c mime]⟩
      else ⟨false, .failed, []⟩

/-! ### Capacity governor (`checkAndCleanAlbum`) -/

/-- Body of the eviction loop: unlink the record's blob (guarded by
`existsSync` in the source, which the idempotent delete subsumes), then
remove its row by id. -/
def evictOne (st : StoreState) (r : StickerRecord) : StoreState :=
  { st with fs := fsDelete st.fs r.filePath,
            table := st.table.filter (fun r2 => r2.id != r.id) }

/-- Translation of `checkAndCleanAlbum`: load the channel newest-first; if the count has
reached `albumMaxSize`, delete every record from position
`albumMaxSize - 1` on (the oldest ones), one at a time, leaving one free
slot for the incoming item. -/
def checkAndCleanAlbum (cfg : Config) (ch : String) (s : StoreState) : StoreState :=
  if cfg.albumMaxSize ≤ (newestFirst s ch).length then
    ((newestFirst s ch).drop (cfg.albumMaxSize - 1)).foldl evictOne s
  else s

/-! ### Ingest (`convertEmoji` loop body) and convert-only -/

/-- Result of processing one image element of `convertEmoji`: the new
store state, the result line, whether `successCount` was incremented, and
the transport log. -/
structure ItemResult where
  state : StoreState
  tag : Outcome
  success : Bool
  sends : List Send
deriving DecidableEq

/-- The storage pipeline of one `convertEmoji` item, starting from the
downloaded bytes `c` (the fetch itself is external): fingerprint, dedup
lookup by `(channelId, md5)` (a hit reports the existing id and touches
nothing), capacity clean, blob write, delivery, and — only after a
successful delivery — the row insert with a fresh auto-increment id. -/
def ingestItem (cfg : Config) (hash : Bytes → String) (storageDir date : String)
    (sess : SessionInfo) (sourceMessageId : String) (c : Bytes)
    (fileSendOk embedOk : Bool) (s : StoreState) : ItemResult :=
  let mime := detectMime c
  let md5 := hash c
  let ext := getExtFromMime mime
  let isGif := mime == "image/gif"
  match channelHashRecords s sess.channelId md5 with
  | e :: _ => { state := s, tag := .duplicate e.id, success := false, sends := [] }
  | [] =>
    let s1 := checkAndCleanAlbum cfg sess.channelId s
    let fileName := savedFileName date md5 ext
    let filePath := savedFilePath storageDir date md5 ext
    let s2 : StoreState := { s1 with fs := fsWrite s1.fs filePath c }
    let d := deliverStored cfg isGif mime c fileName (some filePath) fileSendOk embedOk
    if d.delivered then
      let row : StickerRecord :=
        { id := s2.nextId, channelId := sess.channelId, md5 := md5, ext := ext,
          mime := mime, size := c.length, isGif := isGif, fileName := fileName,
          filePath := filePath, uploaderId := sess.userId,
          sourceMessageId := sourceMessageId, createdAt := s2.now }
      { state := { s2 with table := s2.table ++ [row], nextId := s2.nextId + 1,
                           now := s2.now + 1 },
        tag := d.tag, success := true, sends := d.sends }
    else
      { state := s2, tag := d.tag, success := false, sends := d.sends }

/-- Result of one `convertEmojiOnly` item (no persistent state). -/
structure ConvertOnlyResult where
  tag : Outcome
  success : Bool
  sends : List Send
deriving DecidableEq

/-- One `convertEmojiOnly` item: same fingerprinting and delivery block,
no album lookup, no blob, no row; the ephemeral name is
`temp-<md5 prefix>.<ext>` and file sends carry no persisted path. -/
def convertOnlyItem (cfg : Config) (hash : Bytes → String) (c : Bytes)
    (fileSendOk embedOk : Bool) : ConvertOnlyResult :=
  let mime := detectMime c
  let md5 := hash c
  let ext := getExtFromMime mime
  let isGif := mime == "image/gif"
  let fileName := "temp-" ++ md5.take 8 ++ "." ++ ext
  let d := deliverStored cfg isGif mime c fileName none fileSendOk embedOk
  { tag := d.tag, success := d.delivered, sends := d.sends }

/-! ### Read and mutation commands -/

/-- Result line of `sendEmoji`. -/
inductive SendOutcome where
  | notEnabled
  | outOfRange (total : Nat)
  | fileMissing
  | sentGifFile (fileName : String)
  | sentGifDegraded (fileName : String)
  | sentGifImage (fileName : String)
  | sentStaticFile (fileName : String)
  | sentStaticDegraded (fileName : String)
  | sentStaticImage (fileName : String)
  | sendFailed
deriving DecidableEq

/-- Result of `sendEmoji`: the outcome line, the bytes read back from the
blob (when the read was reached), and the transport log. -/
structure SendResult where
  outcome : SendOutcome
  read : Option Bytes
  sends : List Send
deriving DecidableEq

/-- Placeholder for the unreachable out-of-bounds array access
`records[index - 1]` (the range guard makes the index valid). -/
def dummyRecord : StickerRecord :=
  { id := 0, channelId := "", md5 := "", ext := "", mime := "", size := 0,
    isGif := false, fileName := "", filePath := "", uploaderId := "",
    sourceMessageId := "", createdAt := 0 }

/-- Translation of `sendEmoji`: resolve the one-based index over the newest-first order
(reject outside `[1, count]`), re-read the blob (reject a missing file),
then deliver with the same per-kind mode and file → embedded fallback as
ingest; if the embedded send also throws the outer catch reports a send
failure. -/
def sendEmoji (cfg : Config) (sess : SessionInfo) (i : Int)
    (fileSendOk embedOk : Bool) (s : StoreState) : SendResult :=
  if !(isAlbumEnabledForGroup cfg sess.channelId) then ⟨.notEnabled, none, []⟩
  else
    let records := newestFirst s sess.channelId
    if i < 1 ∨ (records.length : Int) < i then ⟨.outOfRange records.length, none, []⟩
    else
      let record := records.getD (i - 1).toNat dummyRecord
      if !(fsExists s.fs record.filePath) then ⟨.fileMissing, none, []⟩
      else
        match fsRead s.fs record.filePath with
        | none => ⟨.fileMissing, none, []⟩
        | some fileData =>
          if record.isGif then
            if cfg.gifMode = .file then
              if fileSendOk then
                ⟨.sentGifFile record.fileName, some fileData,
                 [.file fileData record.fileName (some record.filePath)]⟩
              else if embedOk then
                ⟨.sentGifDegraded record.fileName, some fileData,
                 [.image fileData "image/gif"]⟩
              else ⟨.sendFailed, some fileData, []⟩
            else if embedOk then
              ⟨.sentGifImage record.fileName, some fileData,
               [.image fileData "image/gif"]⟩
            else ⟨.sendFailed, some fileData, []⟩
          else
            if cfg.staticImageMode = .file then
              if fileSendOk then
                ⟨.sentStaticFile record.fileName, some fileData,
                 [.file fileData record.fileName (some record.filePath)]⟩
              else if embedOk then
                ⟨.sentStaticDegraded record.fileName, some fileData,
                 [.image fileData record.mime]⟩
              else ⟨.sendFailed, some fileData, []⟩
            else if embedOk then
              ⟨.sentStaticImage record.fileName, some fileData,
               [.image fileData record.mime]⟩
            else ⟨.sendFailed, some fileData, []⟩

/-- Result line of `deleteEmoji`. -/
inductive DeleteOutcome where
  | notEnabled
  | denied
  | outOfRange (total : Nat)
  | deleted (fileName : String)
deriving DecidableEq

/-- Translation of `deleteEmoji`: permission gate, then one-based index over the
newest-first order (reject outside `[1, count]`), then unlink the blob and
remove the row by id. -/
def deleteEmoji (cfg : Config) (sess : SessionInfo) (i : Int) (s : StoreState) :
    StoreState × DeleteOutcome :=
  if !(isAlbumEnabledForGroup cfg sess.channelId) then (s, .notEnabled)
  else if !(hasDeletePermission cfg sess) then (s, .denied)
  else
    let records := newestFirst s sess.channelId
    if i < 1 ∨ (records.length : Int) < i then (s, .outOfRange records.length)
    else
      let record := records.getD (i - 1).toNat dummyRecord
      ({ s with fs := fsDelete s.fs record.filePath,
                table := s.table.filter (fun r => r.id != record.id) },
       .deleted record.fileName)

/-- Result line of `clearAlbum`. -/
inductive ClearOutcome where
  | notEnabled
  | denied
  | albumEmpty
  | cancelled
  | cleared (count : Nat)
deriving DecidableEq

/-- Shallow embedding of JS `String.prototype.trim`: strip leading and
trailing whitespace from the character list. -/
def trimChars (l : List Char) : List Char :=
  ((l.dropWhile Char.isWhitespace).reverse.dropWhile Char.isWhitespace).reverse

/-- JS `.trim()` on a string. -/
def jsTrim (s : String) : String := String.mk (trimChars s.data)

/-- The confirmation test `(confirm as string)?.trim() !== '确认'` of
`clearAlbum`, on the resolved `session.prompt(30000)` reply (`none` when
the 30-second window elapsed without a reply). -/
def confirmGiven (reply : Option String) : Bool :=
  match reply with
  | some r => jsTrim r == "确认"
  | none => false

/-- Translation of `clearAlbum`: permission gate, empty-album early return, the
confirmation round-trip (anything but a trimmed `确认` reply cancels
before any deletion), then unlink every blob of the channel and bulk-remove
its rows. -/
def clearAlbum (cfg : Config) (sess : SessionInfo) (reply : Option String)
    (s : StoreState) : StoreState × ClearOutcome :=
  if !(isAlbumEnabledForGroup cfg sess.channelId) then (s, .notEnabled)
  else if !(hasDeletePermission cfg sess) then (s, .denied)
  else
    let records := channelRecords s sess.channelId
    if records.length = 0 then (s, .albumEmpty)
    else if !(confirmGiven reply) then (s, .cancelled)
    else
      ({ s with fs := records.foldl (fun fs r => fsDelete fs r.filePath) s.fs,
                table := s.table.filter (fun r => r.channelId != sess.channelId) },
       .cleared records.length)

/-- The records shown by `viewAlbum` for one page (page size 8, newest
first, `offset = (page - 1) * 8`). -/
def viewAlbumRecords (s : StoreState) (ch : String) (page : Nat) : List StickerRecord :=
  ((newestFirst s ch).drop ((page - 1) * 8)).take 8

/-- Sequential ingestion of a batch (the `for` loop of `convertEmoji`,
with fixed delivery oracles). -/
def ingestList (cfg : Config) (hash : Bytes → String) (storageDir date : String)
    (sess : SessionInfo) (sourceMessageId : String) (fileSendOk embedOk : Bool) :
    List Bytes → StoreState → StoreState
  | [], s => s
  | c :: cs, s =>
    ingestList cfg hash storageDir date sess sourceMessageId fileSendOk embedOk cs
      (ingestItem cfg hash storageDir date sess sourceMessageId c fileSendOk embedOk s).state

/-- One store-mutating (or read-only) command of the plugin's API. -/
inductive Op where
  | ingest (sess : SessionInfo) (sourceMessageId : String) (c : Bytes)
      (fileSendOk embedOk : Bool)
  | del (sess : SessionInfo) (i : Int)
  | clear (sess : SessionInfo) (reply : Option String)
  | send (sess : SessionInfo) (i : Int) (fileSendOk embedOk : Bool)
  | view (sess : SessionInfo) (page : Nat)

/-- State transition of one command (`sendEmoji` and `viewAlbum` do not
mutate the store). -/
def step (cfg : Config) (hash : Bytes → String) (storageDir date : String) :
    Op → StoreState → StoreState
  | .ingest sess src c f e, s => (ingestItem cfg hash storageDir date sess src c f e s).state
  | .del sess i, s => (deleteEmoji cfg sess i s).1
  | .clear sess reply, s => (clearAlbum cfg sess reply s).1
  | .send _ _ _ _, s => s
  | .view _ _, s => s

/-- Run a sequence of commands. -/
def runOps (cfg : Config) (hash : Bytes → String) (storageDir date : String)
    (ops : List Op) (s : StoreState) : StoreState :=
  ops.foldl (fun st op => step cfg hash storageDir date op st) s

/-- The row created for content `c` when it is inserted with auto-increment
id `id` at logical time `t`. -/
def mkRow (hash : Bytes → String) (storageDir date : String) (sess : SessionInfo)
    (sourceMessageId : String) (c : Bytes) (id t : Nat) : StickerRecord :=
  { id := id, channelId := sess.channelId, md5 := hash c,
    ext := getExtFromMime (detectMime c), mime := detectMime c, size := c.length,
    isGif := (detectMime c == "image/gif"),
    fileName := savedFileName date (hash c) (getExtFromMime (detectMime c)),
    filePath := savedFilePath storageDir date (hash c) (getExtFromMime (detectMime c)),
    uploaderId := sess.userId, sourceMessageId := sourceMessageId, createdAt := t }

/-- Trust value of a single role flag, as the spec words it: owner 4,
admin 3, trusted 2, anything else 1. -/
def roleValue (r : String) : Nat :=
  if r = "owner" then 4 else if r = "admin" then 3 else if r = "trusted" then 2 else 1

/-- Modelled from the spec's wording of the permission mapping: direct
context or absent author gives level 1, otherwise the highest value among
the session's role flags wins. -/
def specPermissionLevel (sess : SessionInfo) : Nat :=
  if sess.isDirect || !sess.hasAuthor then 1
  else (sess.roles.map roleValue).foldr max 1

/-- Sample configuration used by the concrete witnesses below (the
defaults of the config schema, with file mode for GIFs). -/
def sampleCfg : Config :=
  { enableAlbum := true, albumEnabledGroups := [], albumMaxSize := 20,
    albumShowImages := true, deletePermissionLevel := 3,
    staticImageMode := TransferMode.buffer, gifMode := TransferMode.file,
    fileTransferMode := TransferMode.buffer, debug := false }

/-- Sample group session of an admin user. -/
def sampleSess : SessionInfo :=
  { isDirect := false, hasAuthor := true, roles := ["admin"], channelId := "g1",
    userId := "u1" }

/-- Sample stand-in for the md5 hex digest: a 32-character string
determined by the content (distinct on the concrete contents the witnesses
use). -/
def sampleHash : Bytes → String := fun b =>
  String.mk (List.replicate 32 (Char.ofNat (97 + (b.length + b.headD 0) % 26)))

/-- Sample group session in a second channel. -/
def sampleSess2 : SessionInfo :=
  { isDirect := false, hasAuthor := true, roles := ["admin"], channelId := "g2",
    userId := "u2" }

/-- Sample configuration with the smallest capacity bound, for the
capacity witness. -/
def capacityCfg : Config := { sampleCfg with albumMaxSize := 1 }

/-- Sample stored record (a GIF in channel `g1`). -/
def sampleRecord : StickerRecord :=
  { id := 1, channelId := "g1", md5 := "m", ext := "gif", mime := "image/gif",
    size := 4, isGif := true, fileName := "2024-01-01-m.gif",
    filePath := "dir/2024-01-01-m.gif", uploaderId := "u1",
    sourceMessageId := "s1", createdAt := 0 }

/-- Sample store holding `sampleRecord` and its blob. -/
def sampleState : StoreState :=
  { table := [sampleRecord], nextId := 2,
    fs := [("dir/2024-01-01-m.gif", [71, 73, 70, 56])], now := 1 }

/-! ### Closed form of the sequential-ingest scenario (capacity bound)

For the capacity-bound property the whole state after `k` successful
sequential ingests of distinct contents into one channel, starting from the
empty store, has a closed form: the retained `(index, content)` pairs are
the last `min k albumMaxSize` ones, the row of pair `(i, c)` carries id
`i + 1` and creation time `i`, and the blob directory holds exactly the
retained blobs (most recent write first). -/

/-- The row the scenario creates for the `i`-th ingested content. -/
def scenarioRow (hash : Bytes → String) (storageDir date : String) (sess : SessionInfo)
    (src : String) (ic : Nat × Bytes) : StickerRecord :=
  mkRow hash storageDir date sess src ic.2 (ic.1 + 1) ic.1

/-- The blob-store entry of the `i`-th ingested content. -/
def scenarioEntry (hash : Bytes → String) (storageDir date : String)
    (ic : Nat × Bytes) : String × Bytes :=
  (savedFilePath storageDir date (hash ic.2) (getExtFromMime (detectMime ic.2)), ic.2)

/-- The `(index, content)` pairs retained after `k` ingests of `cs`. -/
def scenarioKept (cfg : Config) (cs : List Bytes) (k : Nat) : List (Nat × Bytes) :=
  ((cs.take k).drop (k - cfg.albumMaxSize)).enumFrom (k - cfg.albumMaxSize)

/-- The closed form of the store after `k` ingests of `cs` from the empty
store. -/
def stateAfter (cfg : Config) (hash : Bytes → String) (storageDir date : String)
    (sess : SessionInfo) (src : String) (cs : List Bytes) (k : Nat) : StoreState :=
  { table := (scenarioKept cfg cs k).map (scenarioRow hash storageDir date sess src),
    nextId := k + 1,
    fs := ((scenarioKept cfg cs k).map (scenarioEntry hash storageDir date)).reverse,
    now := k }

/-! ### Basic lemmas about the filesystem model -/

theorem fsRead_write_self (fs : List (String × Bytes)) (p : String) (b : Bytes) :
    fsRead (fsWrite fs p b) p = some b := by
  simp [fsRead, fsWrite, List.find?]

theorem fsRead_write_other (fs : List (String × Bytes)) {p q : String} (b : Bytes)
    (h : q ≠ p) : fsRead (fsWrite fs p b) q = fsRead fs q := by
  have h' : p ≠ q := Ne.symm h
  simp only [fsRead, fsWrite]
  rw [List.find?_cons_of_neg _ (by simp [h'])]
  congr 1
  induction fs with
  | nil => rfl
  | cons e fs ih =>
    by_cases he : e.1 = p
    · rw [List.filter_cons_of_neg (by simp [he]), List.find?_cons_of_neg _ (by simp [he, h'])]
      exact ih
    · rw [List.filter_cons_of_pos (by simp [he])]
      by_cases heq : e.1 = q
      · rw [List.find?_cons_of_pos _ (by simp [heq]), List.find?_cons_of_pos _ (by simp [heq])]
      · rw [List.find?_cons_of_neg _ (by simp [heq]), List.find?_cons_of_neg _ (by simp [heq])]
        exact ih

theorem fsRead_delete_self (fs : List (String × Bytes)) (p : String) :
    fsRead (fsDelete fs p) p = none := by
  simp only [fsRead, fsDelete, Option.map_eq_none', List.find?_eq_none]
  intro e he
  have := (List.mem_filter.mp he).2
  simpa using this

theorem fsRead_delete_none {fs : List (String × Bytes)} {p : String} (q : String)
    (h : fsRead fs p = none) : fsRead (fsDelete fs q) p = none := by
  simp only [fsRead, fsDelete, Option.map_eq_none', List.find?_eq_none] at h ⊢
  intro e he
  exact h e (List.mem_filter.mp he).1

theorem fsExists_of_read {fs : List (String × Bytes)} {p : String} {b : Bytes}
    (h : fsRead fs p = some b) : fsExists fs p = true := by
  simp only [fsRead, Option.map_eq_some'] at h
  obtain ⟨e, he, -⟩ := h
  have hm := List.find?_some he
  have hmem := List.mem_of_find?_eq_some he
  exact List.any_eq_true.mpr ⟨e, hmem, hm⟩

theorem fsExists_eq_false_of_read {fs : List (String × Bytes)} {p : String}
    (h : fsRead fs p = none) : fsExists fs p = false := by
  simp only [fsRead, Option.map_eq_none', List.find?_eq_none] at h
  simp only [fsExists, List.any_eq_false]
  intro e he
  simpa using h e he

/-! ### Lemmas about the newest-first ordering -/

theorem insertDesc_eq_append {r : StickerRecord} {l : List StickerRecord}
    (h : ∀ x ∈ l, r.createdAt < x.createdAt) : insertDesc r l = l ++ [r] := by
  induction l with
  | nil => rfl
  | cons x xs ih =>
    have hx : r.createdAt < x.createdAt := h x (by simp)
    simp only [insertDesc]
    rw [if_neg (by omega)]
    rw [ih fun y hy => h y (by simp [hy])]
    rfl

theorem sortByCreatedAtDesc_eq_reverse {l : List StickerRecord}
    (h : l.Pairwise (fun a b => a.createdAt < b.createdAt)) :
    sortByCreatedAtDesc l = l.reverse := by
  induction l with
  | nil => rfl
  | cons a l ih =>
    rcases List.pairwise_cons.mp h with ⟨ha, hl⟩
    show insertDesc a (sortByCreatedAtDesc l) = (a :: l).reverse
    rw [ih hl, insertDesc_eq_append fun x hx => ha x (List.mem_reverse.mp hx),
      List.reverse_cons]

theorem sortByCreatedAtDesc_append_newest {l : List StickerRecord} {r : StickerRecord}
    (h : ∀ x ∈ l, x.createdAt < r.createdAt) :
    sortByCreatedAtDesc (l ++ [r]) = r :: sortByCreatedAtDesc l := by
  induction l with
  | nil => rfl
  | cons a l ih =>
    show insertDesc a (sortByCreatedAtDesc (l ++ [r])) =
      r :: insertDesc a (sortByCreatedAtDesc l)
    rw [ih fun x hx => h x (by simp [hx])]
    show insertDesc a (r :: sortByCreatedAtDesc l) = _
    simp only [insertDesc]
    rw [if_neg (by have := h a (by simp); omega)]

theorem insertDesc_perm (r : StickerRecord) (l : List StickerRecord) :
    (insertDesc r l).Perm (r :: l) := by
  induction l with
  | nil => exact List.Perm.refl _
  | cons x xs ih =>
    simp only [insertDesc]
    split_ifs
    · exact List.Perm.refl _
    · exact (List.Perm.cons x ih).trans (List.Perm.swap r x xs)

theorem sortByCreatedAtDesc_perm (l : List StickerRecord) :
    (sortByCreatedAtDesc l).Perm l := by
  induction l with
  | nil => exact List.Perm.refl _
  | cons a l ih =>
    exact (insertDesc_perm a (sortByCreatedAtDesc l)).trans (List.Perm.cons a ih)

theorem mem_sortByCreatedAtDesc {l : List StickerRecord} {x : StickerRecord} :
    x ∈ sortByCreatedAtDesc l ↔ x ∈ l :=
  (sortByCreatedAtDesc_perm l).mem_iff

theorem length_sortByCreatedAtDesc (l : List StickerRecord) :
    (sortByCreatedAtDesc l).length = l.length :=
  (sortByCreatedAtDesc_perm l).length_eq

/-! ### Lemmas about eviction (`checkAndCleanAlbum`) -/

theorem foldl_evictOne_table_sublist (l : List StickerRecord) (s : StoreState) :
    (l.foldl evictOne s).table.Sublist s.table := by
  induction l generalizing s with
  | nil => exact List.Sublist.refl _
  | cons r l ih => exact (ih (evictOne s r)).trans (List.filter_sublist _)

theorem foldl_evictOne_nextId (l : List StickerRecord) (s : StoreState) :
    (l.foldl evictOne s).nextId = s.nextId := by
  induction l generalizing s with
  | nil => rfl
  | cons r l ih => exact ih (evictOne s r)

theorem foldl_evictOne_now (l : List StickerRecord) (s : StoreState) :
    (l.foldl evictOne s).now = s.now := by
  induction l generalizing s with
  | nil => rfl
  | cons r l ih => exact ih (evictOne s r)

theorem checkAndCleanAlbum_table_sublist (cfg : Config) (ch : String) (s : StoreState) :
    (checkAndCleanAlbum cfg ch s).table.Sublist s.table := by
  unfold checkAndCleanAlbum
  split
  · exact foldl_evictOne_table_sublist _ _
  · exact List.Sublist.refl _

theorem checkAndCleanAlbum_nextId (cfg : Config) (ch : String) (s : StoreState) :
    (checkAndCleanAlbum cfg ch s).nextId = s.nextId := by
  unfold checkAndCleanAlbum
  split
  · exact foldl_evictOne_nextId _ _
  · rfl

theorem checkAndCleanAlbum_now (cfg : Config) (ch : String) (s : StoreState) :
    (checkAndCleanAlbum cfg ch s).now = s.now := by
  unfold checkAndCleanAlbum
  split
  · exact foldl_evictOne_now _ _
  · rfl

theorem channelHashRecords_clean_nil {s : StoreState} {ch h : String}
    (cfg : Config) (ch' : String)
    (hn : channelHashRecords s ch h = []) :
    channelHashRecords (checkAndCleanAlbum cfg ch' s) ch h = [] := by
  have hsub := (checkAndCleanAlbum_table_sublist cfg ch' s).filter
    (fun r => r.channelId == ch && r.md5 == h)
  rw [channelHashRecords] at hn
  rw [hn] at hsub
  exact List.sublist_nil.mp hsub

/-! ### Lemmas about delivery dispatch -/

theorem deliverStored_delivered_of_embedOk (cfg : Config) (g : Bool) (m : String)
    (c : Bytes) (n : String) (p : Option String) (f : Bool) :
    (deliverStored cfg g m c n p f true).delivered = true := by
  unfold deliverStored
  split_ifs <;> first | rfl | simp_all

theorem deliverStored_bothFail (cfg : Config) (g : Bool) (m : String) (c : Bytes)
    (n : String) (p : Option String) :
    deliverStored cfg g m c n p false false =
      ⟨false, Outcome.failed, []⟩ := by
  unfold deliverStored
  split_ifs <;> first | rfl | simp_all

theorem deliverStored_degraded (cfg : Config) (g : Bool) (m : String) (c : Bytes)
    (n : String) (p : Option String)
    (hmode : (if g then cfg.gifMode else cfg.staticImageMode) = TransferMode.file) :
    deliverStored cfg g m c n p false true =
      ⟨true, if g then Outcome.gifDegraded else Outcome.staticDegraded,
       [Send.image c (if g then "image/gif" else m)]⟩ := by
  cases g <;> simp_all [deliverStored]

theorem deliverStored_failed_iff (cfg : Config) (g : Bool) (m : String) (c : Bytes)
    (n : String) (p : Option String) (e : Bool)
    (hmode : (if g then cfg.gifMode else cfg.staticImageMode) = TransferMode.file) :
    ((deliverStored cfg g m c n p false e).tag = Outcome.failed ↔ e = false) := by
  cases g <;> cases e <;> simp_all [deliverStored]

/-! ### Shape lemmas for one ingest step -/


theorem ingestItem_dup (cfg : Config) (hash : Bytes → String) (storageDir date : String)
    (sess : SessionInfo) (src : String) (c : Bytes) (f e : Bool) (s : StoreState)
    (r : StickerRecord) (l : List StickerRecord)
    (hdup : channelHashRecords s sess.channelId (hash c) = r :: l) :
    ingestItem cfg hash storageDir date sess src c f e s =
      { state := s, tag := Outcome.duplicate r.id, success := false, sends := [] } := by
  simp only [ingestItem, hdup]

theorem ingestItem_stored (cfg : Config) (hash : Bytes → String) (storageDir date : String)
    (sess : SessionInfo) (src : String) (c : Bytes) (f : Bool) (s : StoreState)
    (hnodup : channelHashRecords s sess.channelId (hash c) = []) :
    ingestItem cfg hash storageDir date sess src c f true s =
      (let s1 := checkAndCleanAlbum cfg sess.channelId s
       let filePath := savedFilePath storageDir date (hash c) (getExtFromMime (detectMime c))
       let s2 : StoreState := { s1 with fs := fsWrite s1.fs filePath c }
       let d := deliverStored cfg (detectMime c == "image/gif") (detectMime c) c
         (savedFileName date (hash c) (getExtFromMime (detectMime c))) (some filePath) f true
       { state := { s2 with
           table := s2.table ++ [mkRow hash storageDir date sess src c s2.nextId s2.now],
           nextId := s2.nextId + 1, now := s2.now + 1 },
         tag := d.tag, success := true, sends := d.sends }) := by
  simp only [ingestItem, hnodup, deliverStored_delivered_of_embedOk, if_true, mkRow]

theorem ingestItem_deliveryFail (cfg : Config) (hash : Bytes → String)
    (storageDir date : String) (sess : SessionInfo) (src : String) (c : Bytes)
    (s : StoreState)
    (hnodup : channelHashRecords s sess.channelId (hash c) = []) :
    ingestItem cfg hash storageDir date sess src c false false s =
      (let s1 := checkAndCleanAlbum cfg sess.channelId s
       let filePath := savedFilePath storageDir date (hash c) (getExtFromMime (detectMime c))
       { state := { s1 with fs := fsWrite s1.fs filePath c },
         tag := Outcome.failed, success := false, sends := [] }) := by
  simp only [ingestItem, hnodup, deliverStored_bothFail, Bool.false_eq_true, if_false]

/-! ### Theorems -/

theorem channelHashRecords_after_stored (cfg : Config) (hash : Bytes → String)
    (storageDir date : String) (sess : SessionInfo) (src : String) (c : Bytes)
    (f : Bool) (s : StoreState)
    (hnodup : channelHashRecords s sess.channelId (hash c) = []) :
    channelHashRecords (ingestItem cfg hash storageDir date sess src c f true s).state
        sess.channelId (hash c) =
      [mkRow hash storageDir date sess src c
        (checkAndCleanAlbum cfg sess.channelId s).nextId
        (checkAndCleanAlbum cfg sess.channelId s).now] := by
  rw [ingestItem_stored cfg hash storageDir date sess src c f s hnodup]
  have h1 := channelHashRecords_clean_nil cfg sess.channelId hnodup
  rw [channelHashRecords] at h1
  simp only [channelHashRecords, List.filter_append, h1, List.nil_append]
  simp [mkRow]


/-- C1: ingesting the same content twice into one channel stores it once —
the second ingest finds the pre-existing `(channelId, md5)` record, leaves
the whole store (blobs and rows) unchanged, is not counted as a success,
and reports the informational duplicate outcome (the `已存在相册中` line)
carrying the first record's id, which is not the failure outcome. -/
theorem ingest_dedup (cfg : Config) (hash : Bytes → String) (storageDir date : String)
    (sess : SessionInfo) (src1 src2 : String) (c : Bytes) (f1 f2 e2 : Bool)
    (s : StoreState)
    (hnodup : channelHashRecords s sess.channelId (hash c) = []) :
    ∃ r : StickerRecord,
      channelHashRecords (ingestItem cfg hash storageDir date sess src1 c f1 true s).state
          sess.channelId (hash c) = [r] ∧
      ingestItem cfg hash storageDir date sess src2 c f2 e2
          (ingestItem cfg hash storageDir date sess src1 c f1 true s).state =
        { state := (ingestItem cfg hash storageDir date sess src1 c f1 true s).state,
          tag := Outcome.duplicate r.id, success := false, sends := [] } ∧
      (channelHashRecords
          (ingestItem cfg hash storageDir date sess src2 c f2 e2
            (ingestItem cfg hash storageDir date sess src1 c f1 true s).state).state
          sess.channelId (hash c)).length = 1 ∧
      Outcome.duplicate r.id ≠ Outcome.failed := by
  have hafter := channelHashRecords_after_stored cfg hash storageDir date sess src1 c f1 s hnodup
  have hdup := ingestItem_dup cfg hash storageDir date sess src2 c f2 e2 _ _ [] hafter
  refine ⟨_, hafter, hdup, ?_, by simp⟩
  rw [hdup]
  simp [hafter]


theorem one_le_foldr_max (l : List Nat) : 1 ≤ l.foldr max 1 := by
  induction l with
  | nil => simp
  | cons x xs ih => exact le_trans ih (le_max_right x _)

theorem foldr_max_le {l : List Nat} {n : Nat} (hb : 1 ≤ n) (h : ∀ x ∈ l, x ≤ n) :
    l.foldr max 1 ≤ n := by
  induction l with
  | nil => simpa using hb
  | cons x xs ih =>
    simp only [List.foldr_cons]
    exact max_le (h x (by simp)) (ih fun y hy => h y (by simp [hy]))

theorem le_foldr_max {l : List Nat} {x : Nat} (h : x ∈ l) : x ≤ l.foldr max 1 := by
  induction l with
  | nil => cases h
  | cons y ys ih =>
    rcases List.mem_cons.mp h with rfl | hy
    · exact le_max_left _ _
    · exact le_trans (ih hy) (le_max_right _ _)

theorem roleValue_le_four (r : String) : roleValue r ≤ 4 := by
  unfold roleValue; split_ifs <;> omega

/-- C3: the permission mapping equals the spec's function — level 1 in a
direct context or without an author, otherwise the highest matching role
wins with owner ↦ 4, admin ↦ 3, trusted ↦ 2, default 1 — and a delete or
clear operation is allowed exactly when the level reaches the configured
`deletePermissionLevel` threshold. -/
theorem permission_gate_correct (cfg : Config) (sess : SessionInfo) :
    checkUserPermission sess = specPermissionLevel sess ∧
    (hasDeletePermission cfg sess = true ↔
      cfg.deletePermissionLevel ≤ checkUserPermission sess) := by
  refine ⟨?_, by simp [hasDeletePermission]⟩
  unfold checkUserPermission specPermissionLevel
  cases hd : sess.isDirect || !sess.hasAuthor with
  | true => simp
  | false =>
    simp only [Bool.false_eq_true, if_false]
    by_cases ho : "owner" ∈ sess.roles
    · have hoc : sess.roles.contains "owner" = true := by simpa using ho
      have h4 : (4 : Nat) ≤ (sess.roles.map roleValue).foldr max 1 := by
        have hv : roleValue "owner" = 4 := by decide
        exact hv ▸ le_foldr_max (List.mem_map_of_mem roleValue ho)
      have h4' : (sess.roles.map roleValue).foldr max 1 ≤ 4 := by
        refine foldr_max_le (by norm_num) ?_
        rintro x hx
        rcases List.mem_map.mp hx with ⟨r, _, rfl⟩
        exact roleValue_le_four r
      simp only [hoc, if_true]
      omega
    · have hoc : sess.roles.contains "owner" = false := by simpa using ho
      by_cases ha : "admin" ∈ sess.roles
      · have hac : sess.roles.contains "admin" = true := by simpa using ha
        have h3 : (3 : Nat) ≤ (sess.roles.map roleValue).foldr max 1 := by
          have hv : roleValue "admin" = 3 := by decide
          exact hv ▸ le_foldr_max (List.mem_map_of_mem roleValue ha)
        have h3' : (sess.roles.map roleValue).foldr max 1 ≤ 3 := by
          refine foldr_max_le (by norm_num) ?_
          rintro x hx
          rcases List.mem_map.mp hx with ⟨r, hr, rfl⟩
          have hro : r ≠ "owner" := fun h => ho (h ▸ hr)
          unfold roleValue
          split_ifs with hh1 hh2 hh3
          · exact absurd hh1 hro
          all_goals omega
        simp only [hoc, hac, Bool.false_eq_true, if_false, if_true]
        omega
      · have hac : sess.roles.contains "admin" = false := by simpa using ha
        by_cases ht : "trusted" ∈ sess.roles
        · have htc : sess.roles.contains "trusted" = true := by simpa using ht
          have h2 : (2 : Nat) ≤ (sess.roles.map roleValue).foldr max 1 := by
            have hv : roleValue "trusted" = 2 := by decide
            exact hv ▸ le_foldr_max (List.mem_map_of_mem roleValue ht)
          have h2' : (sess.roles.map roleValue).foldr max 1 ≤ 2 := by
            refine foldr_max_le (by norm_num) ?_
            rintro x hx
            rcases List.mem_map.mp hx with ⟨r, hr, rfl⟩
            have hro : r ≠ "owner" := fun h => ho (h ▸ hr)
            have hra : r ≠ "admin" := fun h => ha (h ▸ hr)
            unfold roleValue
            split_ifs with hh1 hh2 hh3 <;>
              first | exact absurd hh1 hro | exact absurd hh2 hra | omega
          simp only [hoc, hac, htc, Bool.false_eq_true, if_false, if_true]
          omega
        · have htc : sess.roles.contains "trusted" = false := by simpa using ht
          have h1' : (sess.roles.map roleValue).foldr max 1 ≤ 1 := by
            refine foldr_max_le (by norm_num) ?_
            rintro x hx
            rcases List.mem_map.mp hx with ⟨r, hr, rfl⟩
            have hro : r ≠ "owner" := fun h => ho (h ▸ hr)
            have hra : r ≠ "admin" := fun h => ha (h ▸ hr)
            have hrt : r ≠ "trusted" := fun h => ht (h ▸ hr)
            unfold roleValue
            split_ifs with hh1 hh2 hh3 <;>
              first | exact absurd hh1 hro | exact absurd hh2 hra
                    | exact absurd hh3 hrt | omega
          have h1 := one_le_foldr_max (sess.roles.map roleValue)
          simp only [hoc, hac, htc, Bool.false_eq_true, if_false]
          omega

/-- C7 counterexample: on the bytes `[0xD2, 0x49, 0x46, 0x46]` the
detector returns `image/webp` although the prefix is not the RIFF marker
`[0x52, 0x49, 0x46, 0x46]` (`'RIFF'`): Node's `toString('ascii')` clears
the high bit of each byte before comparing, and `0xD2 & 0x7F = 0x52`. -/
theorem detectMime_riff_counterexample :
    ¬ (detectMime [210, 73, 70, 70] = "image/webp" ↔
        List.take 4 [210, 73, 70, 70] = [82, 73, 70, 70]) := by
  decide

/-- C7 (amended): the fingerprinting stage is a total function of the raw
bytes; the mime type is `image/png`, `image/jpeg` or `image/gif` exactly
when the byte prefix matches the PNG, JPEG or GIF magic bytes, and
`image/webp` exactly when the first four bytes, each taken modulo 128 (the
high-bit stripping of Node's `'ascii'` decoding), spell `RIFF`; anything
else — including inputs shorter than four bytes — is `image/unknown`.  The
extension is the static mime table with default `jpg` (in particular `jpg`
for unknown), and the animated flag `mime == 'image/gif'` is true exactly
for the GIF type. -/
theorem fingerprint_total_function (b : Bytes) :
    (detectMime b = "image/png" ↔ b.take 4 = [137, 80, 78, 71]) ∧
    (detectMime b = "image/jpeg" ↔ (b.take 3 = [255, 216, 255] ∧ 4 ≤ b.length)) ∧
    (detectMime b = "image/gif" ↔ b.take 4 = [71, 73, 70, 56]) ∧
    (detectMime b = "image/webp" ↔ (b.take 4).map (· % 128) = [82, 73, 70, 70]) ∧
    (b.length < 4 → detectMime b = "image/unknown") ∧
    (detectMime b, getExtFromMime (detectMime b)) ∈
      [("image/png", "png"), ("image/jpeg", "jpg"), ("image/gif", "gif"),
       ("image/webp", "webp"), ("image/unknown", "jpg")] ∧
    ((detectMime b == "image/gif") = true ↔ detectMime b = "image/gif") := by
  match b with
  | [] =>
    have e : detectMime ([] : Bytes) = "image/unknown" := rfl
    refine ⟨?_, ?_, ?_, ?_, ?_, ?_, ?_⟩ <;> simp [e, getExtFromMime]
  | [b0] =>
    have e : detectMime [b0] = "image/unknown" := rfl
    refine ⟨?_, ?_, ?_, ?_, ?_, ?_, ?_⟩ <;> simp [e, getExtFromMime]
  | [b0, b1] =>
    have e : detectMime [b0, b1] = "image/unknown" := rfl
    refine ⟨?_, ?_, ?_, ?_, ?_, ?_, ?_⟩ <;> simp [e, getExtFromMime]
  | [b0, b1, b2] =>
    have e : detectMime [b0, b1, b2] = "image/unknown" := rfl
    refine ⟨?_, ?_, ?_, ?_, ?_, ?_, ?_⟩ <;> simp [e, getExtFromMime]
  | b0 :: b1 :: b2 :: b3 :: rest =>
    have t4 : (b0 :: b1 :: b2 :: b3 :: rest).take 4 = [b0, b1, b2, b3] := rfl
    have t3 : (b0 :: b1 :: b2 :: b3 :: rest).take 3 = [b0, b1, b2] := rfl
    have tl : (4 : Nat) ≤ (b0 :: b1 :: b2 :: b3 :: rest).length := by
      simp
    have tnl : ¬ (b0 :: b1 :: b2 :: b3 :: rest).length < 4 := by omega
    have e : detectMime (b0 :: b1 :: b2 :: b3 :: rest) =
        (if b0 = 137 ∧ b1 = 80 ∧ b2 = 78 ∧ b3 = 71 then "image/png"
         else if b0 = 255 ∧ b1 = 216 ∧ b2 = 255 then "image/jpeg"
         else if b0 = 71 ∧ b1 = 73 ∧ b2 = 70 ∧ b3 = 56 then "image/gif"
         else if b0 % 128 = 82 ∧ b1 % 128 = 73 ∧ b2 % 128 = 70 ∧ b3 % 128 = 70
           then "image/webp"
         else "image/unknown") := rfl
    rw [e, t4, t3]
    split_ifs with h1 h2 h3 h4
    · obtain ⟨rfl, rfl, rfl, rfl⟩ := h1
      refine ⟨by simp, by simp, by simp, by simp, fun h => absurd h tnl,
        by simp [getExtFromMime], by simp⟩
    · obtain ⟨rfl, rfl, rfl⟩ := h2
      refine ⟨by simp, by simp [tl], by simp, by simp, fun h => absurd h tnl,
        by simp [getExtFromMime], by simp⟩
    · obtain ⟨rfl, rfl, rfl, rfl⟩ := h3
      refine ⟨by simp, by simp, by simp, by simp, fun h => absurd h tnl,
        by simp [getExtFromMime], by simp⟩
    · refine ⟨?_, ?_, ?_, ?_, fun h => absurd h tnl, by simp [getExtFromMime], by simp⟩
      · refine iff_of_false (by simp) fun hh => h1 ?_
        simpa using hh
      · refine iff_of_false (by simp) fun hh => h2 ?_
        simpa using hh.1
      · refine iff_of_false (by simp) fun hh => h3 ?_
        simpa using hh
      · refine iff_of_true (by simp) ?_
        simp [h4.1, h4.2.1, h4.2.2.1, h4.2.2.2]
    · refine ⟨?_, ?_, ?_, ?_, fun _ => rfl, by simp [getExtFromMime], by simp⟩
      · refine iff_of_false (by simp) fun hh => h1 ?_
        simpa using hh
      · refine iff_of_false (by simp) fun hh => h2 ?_
        simpa using hh.1
      · refine iff_of_false (by simp) fun hh => h3 ?_
        simpa using hh
      · refine iff_of_false (by simp) fun hh => h4 ?_
        simpa using hh

/-- C1 witness: the dedup theorem applied at a concrete content in a
concrete empty store. -/
theorem ingest_dedup_witness :
    ∃ r : StickerRecord,
      channelHashRecords
          (ingestItem sampleCfg sampleHash "dir" "2024-01-01" sampleSess "m1"
            [71, 73, 70, 56] true true emptyState).state
          sampleSess.channelId (sampleHash [71, 73, 70, 56]) = [r] ∧
      ingestItem sampleCfg sampleHash "dir" "2024-01-01" sampleSess "m2"
          [71, 73, 70, 56] true true
          (ingestItem sampleCfg sampleHash "dir" "2024-01-01" sampleSess "m1"
            [71, 73, 70, 56] true true emptyState).state =
        { state := (ingestItem sampleCfg sampleHash "dir" "2024-01-01" sampleSess "m1"
            [71, 73, 70, 56] true true emptyState).state,
          tag := Outcome.duplicate r.id, success := false, sends := [] } ∧
      (channelHashRecords
          (ingestItem sampleCfg sampleHash "dir" "2024-01-01" sampleSess "m2"
            [71, 73, 70, 56] true true
            (ingestItem sampleCfg sampleHash "dir" "2024-01-01" sampleSess "m1"
              [71, 73, 70, 56] true true emptyState).state).state
          sampleSess.channelId (sampleHash [71, 73, 70, 56])).length = 1 ∧
      Outcome.duplicate r.id ≠ Outcome.failed :=
  ingest_dedup sampleCfg sampleHash "dir" "2024-01-01" sampleSess "m1" "m2"
    [71, 73, 70, 56] true true true emptyState rfl

/-- C9: in a non-duplicate ingest the blob write precedes the row insert —
when the delivery between them throws, the item fails with no row created
for `(channelId, md5)` while the already-written blob remains readable on
disk; and under any delivery outcome the blob at the computed path holds
the ingested bytes, so a created row always has its blob written. -/
theorem ingest_blob_before_row (cfg : Config) (hash : Bytes → String)
    (storageDir date : String) (sess : SessionInfo) (src : String) (c : Bytes)
    (s : StoreState)
    (hnodup : channelHashRecords s sess.channelId (hash c) = []) :
    (fsRead (ingestItem cfg hash storageDir date sess src c false false s).state.fs
        (savedFilePath storageDir date (hash c) (getExtFromMime (detectMime c))) = some c ∧
     channelHashRecords (ingestItem cfg hash storageDir date sess src c false false s).state
        sess.channelId (hash c) = [] ∧
     (ingestItem cfg hash storageDir date sess src c false false s).success = false ∧
     (ingestItem cfg hash storageDir date sess src c false false s).tag = Outcome.failed) ∧
    (∀ f e : Bool,
      fsRead (ingestItem cfg hash storageDir date sess src c f e s).state.fs
        (savedFilePath storageDir date (hash c) (getExtFromMime (detectMime c))) = some c) := by
  constructor
  · rw [ingestItem_deliveryFail cfg hash storageDir date sess src c s hnodup]
    refine ⟨fsRead_write_self _ _ _, ?_, rfl, rfl⟩
    have h1 := channelHashRecords_clean_nil cfg sess.channelId hnodup
    rw [channelHashRecords] at h1 ⊢
    exact h1
  · intro f e
    simp only [ingestItem, hnodup]
    split
    · exact fsRead_write_self _ _ _
    · exact fsRead_write_self _ _ _

/-- C9 witness: the blob-before-row theorem applied at a concrete failing
ingest into a concrete empty store. -/
theorem ingest_blob_before_row_witness :
    fsRead (ingestItem sampleCfg sampleHash "dir" "2024-01-01" sampleSess "m1"
        [71, 73, 70, 56] false false emptyState).state.fs
      (savedFilePath "dir" "2024-01-01" (sampleHash [71, 73, 70, 56])
        (getExtFromMime (detectMime [71, 73, 70, 56]))) = some [71, 73, 70, 56] ∧
    channelHashRecords (ingestItem sampleCfg sampleHash "dir" "2024-01-01" sampleSess "m1"
        [71, 73, 70, 56] false false emptyState).state
      sampleSess.channelId (sampleHash [71, 73, 70, 56]) = [] :=
  ⟨(ingest_blob_before_row sampleCfg sampleHash "dir" "2024-01-01" sampleSess "m1"
      [71, 73, 70, 56] emptyState rfl).1.1,
   (ingest_blob_before_row sampleCfg sampleHash "dir" "2024-01-01" sampleSess "m1"
      [71, 73, 70, 56] emptyState rfl).1.2.1⟩

/-- C5: for an item whose kind is configured to file mode, a failing
file-based send with a working embedded send yields the degraded outcome —
the same bytes are re-sent as an inline image with the same mime type, the
result line is the degraded informational line (different from the failure
line), and the item still counts as a batch success — in both the
ingesting flow and the convert-only flow; the failure outcome arises
exactly when the embedded fallback also throws. -/
theorem delivery_fallback (cfg : Config) (hash : Bytes → String)
    (storageDir date : String) (sess : SessionInfo) (src : String) (c : Bytes)
    (s : StoreState)
    (hnodup : channelHashRecords s sess.channelId (hash c) = [])
    (hmode : (if detectMime c == "image/gif" then cfg.gifMode else cfg.staticImageMode) =
      TransferMode.file) :
    ((ingestItem cfg hash storageDir date sess src c false true s).tag =
        (if detectMime c == "image/gif" then Outcome.gifDegraded
         else Outcome.staticDegraded) ∧
     (ingestItem cfg hash storageDir date sess src c false true s).success = true ∧
     (ingestItem cfg hash storageDir date sess src c false true s).sends =
        [Send.image c (if detectMime c == "image/gif" then "image/gif"
                       else detectMime c)] ∧
     renderLine (ingestItem cfg hash storageDir date sess src c false true s).tag ≠
        renderLine Outcome.failed) ∧
    (convertOnlyItem cfg hash c false true =
      { tag := if detectMime c == "image/gif" then Outcome.gifDegraded
               else Outcome.staticDegraded,
        success := true,
        sends := [Send.image c (if detectMime c == "image/gif" then "image/gif"
                                else detectMime c)] }) ∧
    (∀ e : Bool,
      ((ingestItem cfg hash storageDir date sess src c false e s).tag = Outcome.failed ↔
        e = false)) := by
  have hst := ingestItem_stored cfg hash storageDir date sess src c false s hnodup
  have hdeg := deliverStored_degraded cfg (detectMime c == "image/gif") (detectMime c) c
    (savedFileName date (hash c) (getExtFromMime (detectMime c)))
    (some (savedFilePath storageDir date (hash c) (getExtFromMime (detectMime c)))) hmode
  have htag : (ingestItem cfg hash storageDir date sess src c false true s).tag =
      (if detectMime c == "image/gif" then Outcome.gifDegraded
       else Outcome.staticDegraded) := by
    rw [hst]
    simp only [hdeg]
  refine ⟨⟨htag, ?_, ?_, ?_⟩, ?_, ?_⟩
  · rw [hst]
  · rw [hst]
    simp only [hdeg]
  · rw [htag]
    cases hg : detectMime c == "image/gif" <;> simp [renderLine]
  · have hdeg2 := deliverStored_degraded cfg (detectMime c == "image/gif")
      (detectMime c) c ("temp-" ++ (hash c).take 8 ++ "." ++ getExtFromMime (detectMime c))
      none hmode
    simp only [convertOnlyItem, hdeg2]
  · intro e
    cases e
    · rw [ingestItem_deliveryFail cfg hash storageDir date sess src c s hnodup]
      simp
    · rw [htag]
      cases hg : detectMime c == "image/gif" <;> simp

/-- C5 witness: the delivery-fallback theorem applied to a concrete GIF
content with GIF mode configured to `'file'`. -/
theorem delivery_fallback_witness :
    (ingestItem sampleCfg sampleHash "dir" "2024-01-01" sampleSess "m1"
        [71, 73, 70, 56] false true emptyState).tag =
      (if detectMime [71, 73, 70, 56] == "image/gif" then Outcome.gifDegraded
       else Outcome.staticDegraded) ∧
    (ingestItem sampleCfg sampleHash "dir" "2024-01-01" sampleSess "m1"
        [71, 73, 70, 56] false true emptyState).success = true :=
  ⟨(delivery_fallback sampleCfg sampleHash "dir" "2024-01-01" sampleSess "m1"
      [71, 73, 70, 56] emptyState rfl (by decide)).1.1,
   (delivery_fallback sampleCfg sampleHash "dir" "2024-01-01" sampleSess "m1"
      [71, 73, 70, 56] emptyState rfl (by decide)).1.2.1⟩

theorem fsRead_foldl_delete_preserve (l : List StickerRecord)
    (fs : List (String × Bytes)) (p : String) (h : fsRead fs p = none) :
    fsRead (l.foldl (fun acc r => fsDelete acc r.filePath) fs) p = none := by
  induction l generalizing fs with
  | nil => exact h
  | cons a l ih => exact ih _ (fsRead_delete_none _ h)

theorem fsRead_foldl_delete (l : List StickerRecord) (fs : List (String × Bytes))
    {p : String} (hp : ∃ r ∈ l, r.filePath = p) :
    fsRead (l.foldl (fun acc r => fsDelete acc r.filePath) fs) p = none := by
  induction l generalizing fs with
  | nil =>
    rcases hp with ⟨r, hr, -⟩
    cases hr
  | cons a l ih =>
    rcases hp with ⟨r, hr, hrp⟩
    rcases List.mem_cons.mp hr with rfl | hmem
    · subst hrp
      exact fsRead_foldl_delete_preserve l _ _ (fsRead_delete_self fs r.filePath)
    · exact ih _ ⟨r, hmem, hrp⟩

/-- C4: the clear-all operation on a non-empty channel with sufficient
permission deletes nothing unless the resolved confirmation decision is a
reply whose trimmed text equals `确认` (any other reply, or no reply
within the 30-second window, returns the cancelled outcome with the state
untouched); on confirmation it removes every blob and every row of that
channel, leaving other channels' rows in place. -/
theorem clear_requires_confirmation (cfg : Config) (sess : SessionInfo)
    (reply : Option String) (s : StoreState)
    (hEn : isAlbumEnabledForGroup cfg sess.channelId = true)
    (hPerm : hasDeletePermission cfg sess = true)
    (hNE : channelRecords s sess.channelId ≠ []) :
    (confirmGiven reply = false →
      clearAlbum cfg sess reply s = (s, ClearOutcome.cancelled)) ∧
    (confirmGiven reply = true →
      channelRecords (clearAlbum cfg sess reply s).1 sess.channelId = [] ∧
      (∀ r ∈ channelRecords s sess.channelId,
        fsRead (clearAlbum cfg sess reply s).1.fs r.filePath = none) ∧
      (∀ r ∈ s.table, r.channelId ≠ sess.channelId →
        r ∈ (clearAlbum cfg sess reply s).1.table) ∧
      (clearAlbum cfg sess reply s).2 =
        ClearOutcome.cleared (channelRecords s sess.channelId).length) := by
  have hlen : ¬ (channelRecords s sess.channelId).length = 0 :=
    fun h => hNE (List.length_eq_zero.mp h)
  constructor
  · intro hconf
    simp [clearAlbum, hEn, hPerm, hlen, hconf]
  · intro hconf
    have hres : clearAlbum cfg sess reply s =
        ({ s with
            fs := (channelRecords s sess.channelId).foldl
              (fun fs r => fsDelete fs r.filePath) s.fs,
            table := s.table.filter (fun r => r.channelId != sess.channelId) },
         ClearOutcome.cleared (channelRecords s sess.channelId).length) := by
      simp [clearAlbum, hEn, hPerm, hlen, hconf]
    refine ⟨?_, ?_, ?_, ?_⟩
    · rw [hres]
      simp only [channelRecords, List.filter_filter]
      apply List.filter_eq_nil.mpr
      intro r _
      cases hch : r.channelId == sess.channelId
      · simp [hch]
      · simp [hch]
        exact eq_of_beq hch
    · intro r hr
      rw [hres]
      exact fsRead_foldl_delete _ _ ⟨r, hr, rfl⟩
    · intro r hr hne
      rw [hres]
      exact List.mem_filter.mpr ⟨hr, by simp [hne]⟩
    · rw [hres]

/-- C4 witness: the confirmation theorem applied to a concrete one-record
store, once with the confirming reply and once with a timed-out prompt. -/
theorem clear_requires_confirmation_witness :
    channelRecords (clearAlbum sampleCfg sampleSess (some "确认") sampleState).1
      sampleSess.channelId = [] ∧
    clearAlbum sampleCfg sampleSess none sampleState = (sampleState, ClearOutcome.cancelled) :=
  ⟨((clear_requires_confirmation sampleCfg sampleSess (some "确认") sampleState
      (by decide) (by decide) (by decide)).2 (by decide)).1,
   (clear_requires_confirmation sampleCfg sampleSess none sampleState
      (by decide) (by decide) (by decide)).1 rfl⟩

theorem checkAndCleanAlbum_of_lt (cfg : Config) (ch : String) (s : StoreState)
    (h : (newestFirst s ch).length < cfg.albumMaxSize) :
    checkAndCleanAlbum cfg ch s = s := by
  unfold checkAndCleanAlbum
  rw [if_neg (by omega)]

theorem newestFirst_after_stored (cfg : Config) (hash : Bytes → String)
    (storageDir date : String) (sess : SessionInfo) (src : String) (c : Bytes)
    (f : Bool) (s : StoreState)
    (hnodup : channelHashRecords s sess.channelId (hash c) = [])
    (hclock : ∀ r ∈ s.table, r.createdAt < s.now) :
    newestFirst (ingestItem cfg hash storageDir date sess src c f true s).state
        sess.channelId =
      mkRow hash storageDir date sess src c
          (checkAndCleanAlbum cfg sess.channelId s).nextId
          (checkAndCleanAlbum cfg sess.channelId s).now ::
        sortByCreatedAtDesc
          (channelRecords (checkAndCleanAlbum cfg sess.channelId s) sess.channelId) := by
  rw [ingestItem_stored cfg hash storageDir date sess src c f s hnodup]
  show sortByCreatedAtDesc (List.filter _
    ((checkAndCleanAlbum cfg sess.channelId s).table ++ [_])) = _
  rw [List.filter_append]
  have hrow : List.filter (fun r => r.channelId == sess.channelId)
      [mkRow hash storageDir date sess src c
        (checkAndCleanAlbum cfg sess.channelId s).nextId
        (checkAndCleanAlbum cfg sess.channelId s).now] =
      [mkRow hash storageDir date sess src c
        (checkAndCleanAlbum cfg sess.channelId s).nextId
        (checkAndCleanAlbum cfg sess.channelId s).now] := by
    simp [mkRow]
  rw [hrow]
  apply sortByCreatedAtDesc_append_newest
  intro x hx
  have hx2 : x ∈ s.table :=
    (checkAndCleanAlbum_table_sublist cfg sess.channelId s).subset (List.mem_filter.mp hx).1
  have hlt := hclock x hx2
  have hnow := checkAndCleanAlbum_now cfg sess.channelId s
  simpa [mkRow, hnow] using hlt

theorem sendEmoji_evaluates (cfg : Config) (sess : SessionInfo) (f e : Bool)
    (s : StoreState) (row : StickerRecord) (rest : List StickerRecord)
    (hEn : isAlbumEnabledForGroup cfg sess.channelId = true)
    (hnf : newestFirst s sess.channelId = row :: rest) :
    (fsRead s.fs row.filePath = none →
      sendEmoji cfg sess 1 f e s = ⟨SendOutcome.fileMissing, none, []⟩) ∧
    (∀ b : Bytes, fsRead s.fs row.filePath = some b →
      (sendEmoji cfg sess 1 f e s).read = some b) := by
  have hguard : ¬ ((1 : Int) < 1 ∨ (((row :: rest).length : Nat) : Int) < 1) := by
    simp only [List.length_cons]
    omega
  constructor
  · intro hnone
    have hex := fsExists_eq_false_of_read hnone
    simp only [sendEmoji, hEn, Bool.not_true, Bool.false_eq_true, if_false, hnf]
    rw [if_neg hguard]
    have hget : (row :: rest).getD ((1 : Int) - 1).toNat dummyRecord = row := rfl
    rw [hget, hex]
    simp [hnone]
  · intro b hb
    have hex := fsExists_of_read hb
    simp only [sendEmoji, hEn, Bool.not_true, Bool.false_eq_true, if_false, hnf]
    rw [if_neg hguard]
    have hget : (row :: rest).getD ((1 : Int) - 1).toNat dummyRecord = row := rfl
    rw [hget, hex]
    simp only [Bool.not_true, Bool.false_eq_true, if_false, hb]
    split_ifs <;> rfl

/-- C8: a successful non-duplicate ingest followed immediately by
get-by-index 1 (the newest-first head) reads back from the stored blob
path exactly the ingested bytes, hence bytes with the same content hash
that was computed at ingest time. -/
theorem ingest_roundtrip (cfg : Config) (hash : Bytes → String)
    (storageDir date : String) (sess : SessionInfo) (src : String) (c : Bytes)
    (f f2 e2 : Bool) (s : StoreState)
    (hEn : isAlbumEnabledForGroup cfg sess.channelId = true)
    (hnodup : channelHashRecords s sess.channelId (hash c) = [])
    (hclock : ∀ r ∈ s.table, r.createdAt < s.now) :
    (sendEmoji cfg sess 1 f2 e2
        (ingestItem cfg hash storageDir date sess src c f true s).state).read = some c ∧
    ((sendEmoji cfg sess 1 f2 e2
        (ingestItem cfg hash storageDir date sess src c f true s).state).read.map hash) =
      some (hash c) := by
  have hnf := newestFirst_after_stored cfg hash storageDir date sess src c f s hnodup hclock
  have hread : fsRead (ingestItem cfg hash storageDir date sess src c f true s).state.fs
      (mkRow hash storageDir date sess src c
        (checkAndCleanAlbum cfg sess.channelId s).nextId
        (checkAndCleanAlbum cfg sess.channelId s).now).filePath = some c := by
    rw [ingestItem_stored cfg hash storageDir date sess src c f s hnodup]
    exact fsRead_write_self _ _ _
  have h := (sendEmoji_evaluates cfg sess f2 e2
    (ingestItem cfg hash storageDir date sess src c f true s).state _ _ hEn hnf).2 c hread
  exact ⟨h, by rw [h]; rfl⟩

/-- C8 witness: the round-trip theorem at a concrete GIF ingested into an
empty store. -/
theorem ingest_roundtrip_witness :
    (sendEmoji sampleCfg sampleSess 1 true true
        (ingestItem sampleCfg sampleHash "dir" "2024-01-01" sampleSess "m1"
          [71, 73, 70, 56] true true emptyState).state).read = some [71, 73, 70, 56] :=
  (ingest_roundtrip sampleCfg sampleHash "dir" "2024-01-01" sampleSess "m1"
    [71, 73, 70, 56] true true true emptyState (by decide) rfl (by simp [emptyState])).1

/-- C10: the blob path is built from the calendar date, the content hash
and the extension only — the channel does not appear — so ingesting the
same bytes on the same day into two different channels creates two records
that reference one shared blob path; deleting the first channel's record
by index then unlinks that blob while the second channel's record
survives, leaving it without a blob: a subsequent get-by-index on the
second channel reports the missing-file outcome. -/
theorem shared_blob_cross_channel (cfg : Config) (hash : Bytes → String)
    (storageDir date : String) (sess1 sess2 : SessionInfo) (src1 src2 : String)
    (c : Bytes) (f2 e2 : Bool)
    (hch : sess1.channelId ≠ sess2.channelId)
    (hEn1 : isAlbumEnabledForGroup cfg sess1.channelId = true)
    (hEn2 : isAlbumEnabledForGroup cfg sess2.channelId = true)
    (hPerm1 : hasDeletePermission cfg sess1 = true)
    (hM : 1 ≤ cfg.albumMaxSize) :
    (channelRecords
        (ingestItem cfg hash storageDir date sess2 src2 c true true
          (ingestItem cfg hash storageDir date sess1 src1 c true true emptyState).state).state
        sess1.channelId).map (fun r => r.filePath) =
      [savedFilePath storageDir date (hash c) (getExtFromMime (detectMime c))] ∧
    (channelRecords
        (ingestItem cfg hash storageDir date sess2 src2 c true true
          (ingestItem cfg hash storageDir date sess1 src1 c true true emptyState).state).state
        sess2.channelId).map (fun r => r.filePath) =
      [savedFilePath storageDir date (hash c) (getExtFromMime (detectMime c))] ∧
    (channelRecords
        (deleteEmoji cfg sess1 1
          (ingestItem cfg hash storageDir date sess2 src2 c true true
            (ingestItem cfg hash storageDir date sess1 src1 c true true emptyState).state).state).1
        sess2.channelId).map (fun r => r.filePath) =
      [savedFilePath storageDir date (hash c) (getExtFromMime (detectMime c))] ∧
    fsRead
      (deleteEmoji cfg sess1 1
        (ingestItem cfg hash storageDir date sess2 src2 c true true
          (ingestItem cfg hash storageDir date sess1 src1 c true true emptyState).state).state).1.fs
      (savedFilePath storageDir date (hash c) (getExtFromMime (detectMime c))) = none ∧
    (sendEmoji cfg sess2 1 f2 e2
      (deleteEmoji cfg sess1 1
        (ingestItem cfg hash storageDir date sess2 src2 c true true
          (ingestItem cfg hash storageDir date sess1 src1 c true true emptyState).state).state).1).outcome =
      SendOutcome.fileMissing := by
  have hbeq : (sess1.channelId == sess2.channelId) = false := beq_eq_false_iff_ne.mpr hch
  have hbeq2 : (sess2.channelId == sess1.channelId) = false :=
    beq_eq_false_iff_ne.mpr (Ne.symm hch)
  have h1 : (ingestItem cfg hash storageDir date sess1 src1 c true true emptyState).state =
      { table := [mkRow hash storageDir date sess1 src1 c 1 0], nextId := 2,
        fs := [(savedFilePath storageDir date (hash c) (getExtFromMime (detectMime c)), c)],
        now := 1 } := by
    rw [ingestItem_stored cfg hash storageDir date sess1 src1 c true emptyState rfl]
    rw [checkAndCleanAlbum_of_lt cfg sess1.channelId emptyState (by
      have hz : newestFirst emptyState sess1.channelId = [] := rfl
      rw [hz]
      simpa using hM)]
    rfl
  have hnodup2 : channelHashRecords
      (ingestItem cfg hash storageDir date sess1 src1 c true true emptyState).state
      sess2.channelId (hash c) = [] := by
    rw [h1]
    simp [channelHashRecords, mkRow, hbeq]
  have h2 : (ingestItem cfg hash storageDir date sess2 src2 c true true
      (ingestItem cfg hash storageDir date sess1 src1 c true true emptyState).state).state =
      { table := [mkRow hash storageDir date sess1 src1 c 1 0,
                  mkRow hash storageDir date sess2 src2 c 2 1], nextId := 3,
        fs := [(savedFilePath storageDir date (hash c) (getExtFromMime (detectMime c)), c)],
        now := 2 } := by
    rw [ingestItem_stored cfg hash storageDir date sess2 src2 c true _ hnodup2]
    rw [h1]
    rw [checkAndCleanAlbum_of_lt cfg sess2.channelId _ (by
      have hz : newestFirst
          ({ table := [mkRow hash storageDir date sess1 src1 c 1 0], nextId := 2,
             fs := [(savedFilePath storageDir date (hash c) (getExtFromMime (detectMime c)), c)],
             now := 1 } : StoreState) sess2.channelId = [] := by
        simp [newestFirst, channelRecords, mkRow, hbeq, sortByCreatedAtDesc]
      rw [hz]
      simpa using hM)]
    simp [fsWrite, mkRow]
  have h3 : deleteEmoji cfg sess1 1
      (ingestItem cfg hash storageDir date sess2 src2 c true true
        (ingestItem cfg hash storageDir date sess1 src1 c true true emptyState).state).state =
      ({ table := [mkRow hash storageDir date sess2 src2 c 2 1], nextId := 3,
         fs := [], now := 2 },
       DeleteOutcome.deleted (mkRow hash storageDir date sess1 src1 c 1 0).fileName) := by
    rw [h2]
    have hv : newestFirst
        ({ table := [mkRow hash storageDir date sess1 src1 c 1 0,
                     mkRow hash storageDir date sess2 src2 c 2 1], nextId := 3,
           fs := [(savedFilePath storageDir date (hash c) (getExtFromMime (detectMime c)), c)],
           now := 2 } : StoreState) sess1.channelId =
        [mkRow hash storageDir date sess1 src1 c 1 0] := by
      simp [newestFirst, channelRecords, mkRow, hbeq2, sortByCreatedAtDesc, insertDesc]
    simp only [deleteEmoji, hEn1, hPerm1, Bool.not_true, Bool.false_eq_true, if_false, hv]
    rw [if_neg (by simp)]
    have hget : ([mkRow hash storageDir date sess1 src1 c 1 0]).getD
        ((1 : Int) - 1).toNat dummyRecord = mkRow hash storageDir date sess1 src1 c 1 0 := rfl
    rw [hget]
    simp [fsDelete, mkRow]
  have hnf3 : newestFirst
      (deleteEmoji cfg sess1 1
        (ingestItem cfg hash storageDir date sess2 src2 c true true
          (ingestItem cfg hash storageDir date sess1 src1 c true true emptyState).state).state).1
      sess2.channelId = [mkRow hash storageDir date sess2 src2 c 2 1] := by
    rw [h3]
    simp [newestFirst, channelRecords, mkRow, sortByCreatedAtDesc, insertDesc]
  refine ⟨?_, ?_, ?_, ?_, ?_⟩
  · rw [h2]
    simp [channelRecords, mkRow, hbeq2]
  · rw [h2]
    simp [channelRecords, mkRow, hbeq]
  · rw [h3]
    simp [channelRecords, mkRow]
  · rw [h3]
    rfl
  · have hmiss := (sendEmoji_evaluates cfg sess2 f2 e2 _ _ _ hEn2 hnf3).1 (by rw [h3]; rfl)
    rw [hmiss]

/-- C10 witness: the shared-blob theorem at concrete distinct channels and
a concrete GIF content. -/
theorem shared_blob_cross_channel_witness :
    fsRead
      (deleteEmoji sampleCfg sampleSess 1
        (ingestItem sampleCfg sampleHash "dir" "2024-01-01" sampleSess2 "m2"
          [71, 73, 70, 56] true true
          (ingestItem sampleCfg sampleHash "dir" "2024-01-01" sampleSess "m1"
            [71, 73, 70, 56] true true emptyState).state).state).1.fs
      (savedFilePath "dir" "2024-01-01" (sampleHash [71, 73, 70, 56])
        (getExtFromMime (detectMime [71, 73, 70, 56]))) = none := by
  exact (shared_blob_cross_channel sampleCfg sampleHash "dir" "2024-01-01"
    sampleSess sampleSess2 "m1" "m2" [71, 73, 70, 56] true true (by decide) (by decide)
    (by decide) (by decide) (by decide)).2.2.2.1

theorem filter_swap {α : Type} (p q : α → Bool) (l : List α) :
    (l.filter q).filter p = (l.filter p).filter q := by
  rw [List.filter_filter, List.filter_filter]
  congr 1
  funext a
  exact Bool.and_comm _ _

theorem filter_ne_id_length {l : List StickerRecord} {r : StickerRecord}
    (hnd : (l.map (fun x => x.id)).Nodup) (hr : r ∈ l) :
    (l.filter (fun x => x.id != r.id)).length + 1 = l.length := by
  induction l with
  | nil => cases hr
  | cons a l ih =>
    simp only [List.map_cons, List.nodup_cons] at hnd
    rcases List.mem_cons.mp hr with rfl | hmem
    · rw [List.filter_cons_of_neg (by simp)]
      have hkeep : l.filter (fun x => x.id != r.id) = l := by
        apply List.filter_eq_self.mpr
        intro x hx
        have hne : x.id ≠ r.id := fun h => hnd.1 (h ▸ List.mem_map_of_mem (fun y => y.id) hx)
        simpa using hne
      rw [hkeep, List.length_cons]
    · have hne : a.id ≠ r.id := fun h => hnd.1 (h ▸ List.mem_map_of_mem (fun y => y.id) hmem)
      rw [List.filter_cons_of_pos (by simpa using hne)]
      have := ih hnd.2 hmem
      simp only [List.length_cons]
      omega

theorem step_frame (cfg : Config) (hash : Bytes → String) (storageDir date : String)
    (op : Op) (s : StoreState) :
    s.nextId ≤ (step cfg hash storageDir date op s).nextId ∧
    ∀ r ∈ (step cfg hash storageDir date op s).table,
      r ∈ s.table ∨ (r.id = s.nextId ∧
        (step cfg hash storageDir date op s).nextId = s.nextId + 1) := by
  cases op with
  | ingest sess src c f e =>
    simp only [step]
    cases h : channelHashRecords s sess.channelId (hash c) with
    | cons r' l =>
      rw [ingestItem_dup cfg hash storageDir date sess src c f e s r' l h]
      exact ⟨le_refl _, fun r hr => Or.inl hr⟩
    | nil =>
      simp only [ingestItem, h]
      split
      · refine ⟨?_, ?_⟩
        · simp only [checkAndCleanAlbum_nextId]
          omega
        · intro r hr
          rcases List.mem_append.mp hr with hl | hr2
          · exact Or.inl ((checkAndCleanAlbum_table_sublist cfg sess.channelId s).subset hl)
          · right
            have : r = mkRow hash storageDir date sess src c
                (checkAndCleanAlbum cfg sess.channelId s).nextId
                (checkAndCleanAlbum cfg sess.channelId s).now := by
              simpa [mkRow] using hr2
            subst this
            simp [mkRow, checkAndCleanAlbum_nextId]
      · refine ⟨by simp [checkAndCleanAlbum_nextId], ?_⟩
        intro r hr
        exact Or.inl ((checkAndCleanAlbum_table_sublist cfg sess.channelId s).subset hr)
  | del sess i =>
    simp only [step, deleteEmoji]
    split_ifs <;>
      first
        | exact ⟨le_refl _, fun r hr => Or.inl hr⟩
        | exact ⟨le_refl _, fun r hr => Or.inl (List.mem_filter.mp hr).1⟩
  | clear sess reply =>
    simp only [step, clearAlbum]
    split_ifs <;>
      first
        | exact ⟨le_refl _, fun r hr => Or.inl hr⟩
        | exact ⟨le_refl _, fun r hr => Or.inl (List.mem_filter.mp hr).1⟩
  | send sess i f e => exact ⟨le_refl _, fun r hr => Or.inl hr⟩
  | view sess page => exact ⟨le_refl _, fun r hr => Or.inl hr⟩

theorem runOps_not_present (cfg : Config) (hash : Bytes → String)
    (storageDir date : String) (ops : List Op) (s : StoreState) (rid : Nat)
    (hwf : ∀ r ∈ s.table, r.id < s.nextId)
    (hlt : rid < s.nextId)
    (habs : ∀ r ∈ s.table, r.id ≠ rid) :
    ∀ r ∈ (runOps cfg hash storageDir date ops s).table, r.id ≠ rid := by
  induction ops generalizing s with
  | nil => exact habs
  | cons op ops ih =>
    have hf := step_frame cfg hash storageDir date op s
    refine ih (step cfg hash storageDir date op s) ?_ ?_ ?_
    · intro r hr
      rcases hf.2 r hr with hmem | ⟨hid, hnx⟩
      · exact lt_of_lt_of_le (hwf r hmem) hf.1
      · omega
    · exact lt_of_lt_of_le hlt hf.1
    · intro r hr
      rcases hf.2 r hr with hmem | ⟨hid, hnx⟩
      · exact habs r hmem
      · omega

theorem sendEmoji_outOfRange_iff (cfg : Config) (sess : SessionInfo) (i : Int)
    (f e : Bool) (s : StoreState)
    (hEn : isAlbumEnabledForGroup cfg sess.channelId = true) :
    ((sendEmoji cfg sess i f e s).outcome =
        SendOutcome.outOfRange (newestFirst s sess.channelId).length ↔
      (i < 1 ∨ ((newestFirst s sess.channelId).length : Int) < i)) := by
  simp only [sendEmoji, hEn, Bool.not_true, Bool.false_eq_true, if_false]
  by_cases hg : (i < 1 ∨ ((newestFirst s sess.channelId).length : Int) < i)
  · rw [if_pos hg]
    simpa using hg
  · rw [if_neg hg]
    refine iff_of_false ?_ hg
    split
    · simp
    · split
      · simp
      · split_ifs <;> simp

/-- C6: over the newest-first ordering of a channel, both get-by-index and
delete-by-index report the index-out-of-range outcome exactly when the
one-based index lies outside `[1, totalCount]`, the failed delete leaving
the store untouched; for an in-range index, delete removes exactly the
addressed record — the channel count drops by exactly one and the record's
blob path reads back as missing — and the deleted record's id never
appears again in the album listing after any further sequence of
operations. -/
theorem index_bounds_and_delete (cfg : Config) (hash : Bytes → String)
    (storageDir date : String) (sess : SessionInfo) (i : Int) (f e : Bool)
    (s : StoreState)
    (hEn : isAlbumEnabledForGroup cfg sess.channelId = true)
    (hPerm : hasDeletePermission cfg sess = true)
    (hids : (s.table.map (fun r => r.id)).Nodup)
    (hwf : ∀ r ∈ s.table, r.id < s.nextId) :
    ((sendEmoji cfg sess i f e s).outcome =
        SendOutcome.outOfRange (newestFirst s sess.channelId).length ↔
      (i < 1 ∨ ((newestFirst s sess.channelId).length : Int) < i)) ∧
    ((deleteEmoji cfg sess i s).2 =
        DeleteOutcome.outOfRange (newestFirst s sess.channelId).length ↔
      (i < 1 ∨ ((newestFirst s sess.channelId).length : Int) < i)) ∧
    ((i < 1 ∨ ((newestFirst s sess.channelId).length : Int) < i) →
      (deleteEmoji cfg sess i s).1 = s) ∧
    (¬ (i < 1 ∨ ((newestFirst s sess.channelId).length : Int) < i) →
      (channelRecords (deleteEmoji cfg sess i s).1 sess.channelId).length + 1 =
        (channelRecords s sess.channelId).length ∧
      fsRead (deleteEmoji cfg sess i s).1.fs
        ((newestFirst s sess.channelId).getD (i - 1).toNat dummyRecord).filePath = none ∧
      (deleteEmoji cfg sess i s).2 = DeleteOutcome.deleted
        ((newestFirst s sess.channelId).getD (i - 1).toNat dummyRecord).fileName ∧
      ∀ ops : List Op, ∀ page : Nat,
        ((newestFirst s sess.channelId).getD (i - 1).toNat dummyRecord).id ∉
          (viewAlbumRecords
            (runOps cfg hash storageDir date ops (deleteEmoji cfg sess i s).1)
            sess.channelId page).map (fun r => r.id)) := by
  have hdel : ∀ hg : ¬ (i < 1 ∨ ((newestFirst s sess.channelId).length : Int) < i),
      deleteEmoji cfg sess i s =
        ({ s with
            fs := fsDelete s.fs
              ((newestFirst s sess.channelId).getD (i - 1).toNat dummyRecord).filePath,
            table := s.table.filter (fun r =>
              r.id != ((newestFirst s sess.channelId).getD (i - 1).toNat dummyRecord).id) },
         DeleteOutcome.deleted
           ((newestFirst s sess.channelId).getD (i - 1).toNat dummyRecord).fileName) := by
    intro hg
    simp only [deleteEmoji, hEn, hPerm, Bool.not_true, Bool.false_eq_true, if_false]
    rw [if_neg hg]
  refine ⟨sendEmoji_outOfRange_iff cfg sess i f e s hEn, ?_, ?_, ?_⟩
  · simp only [deleteEmoji, hEn, hPerm, Bool.not_true, Bool.false_eq_true, if_false]
    by_cases hg : (i < 1 ∨ ((newestFirst s sess.channelId).length : Int) < i)
    · rw [if_pos hg]
      simpa using hg
    · rw [if_neg hg]
      exact iff_of_false (by simp) hg
  · intro hg
    simp only [deleteEmoji, hEn, hPerm, Bool.not_true, Bool.false_eq_true, if_false]
    rw [if_pos hg]
  · intro hg
    have hlt : (i - 1).toNat < (newestFirst s sess.channelId).length := by omega
    have hgetmem : (newestFirst s sess.channelId).getD (i - 1).toNat dummyRecord ∈
        newestFirst s sess.channelId := by
      rw [List.getD_eq_get _ _ hlt]
      exact List.get_mem _ _ _
    have hmemch : (newestFirst s sess.channelId).getD (i - 1).toNat dummyRecord ∈
        channelRecords s sess.channelId := mem_sortByCreatedAtDesc.mp hgetmem
    have hmemtab : (newestFirst s sess.channelId).getD (i - 1).toNat dummyRecord ∈ s.table :=
      (List.mem_filter.mp hmemch).1
    have hnd : ((channelRecords s sess.channelId).map (fun r => r.id)).Nodup :=
      List.Nodup.sublist (List.Sublist.map _ (List.filter_sublist s.table)) hids
    rw [hdel hg]
    refine ⟨?_, fsRead_delete_self _ _, rfl, ?_⟩
    · simp only [channelRecords]
      rw [filter_swap]
      exact filter_ne_id_length hnd hmemch
    · intro ops page hmem2
      obtain ⟨r', hr'mem, hr'id⟩ := List.mem_map.mp hmem2
      have h1 : r' ∈ newestFirst (runOps cfg hash storageDir date ops
          ({ s with
              fs := fsDelete s.fs
                ((newestFirst s sess.channelId).getD (i - 1).toNat dummyRecord).filePath,
              table := s.table.filter (fun r =>
                r.id != ((newestFirst s sess.channelId).getD (i - 1).toNat
                  dummyRecord).id) } : StoreState)) sess.channelId :=
        List.mem_of_mem_drop (List.mem_of_mem_take hr'mem)
      have h2 := (List.mem_filter.mp (mem_sortByCreatedAtDesc.mp h1)).1
      refine absurd hr'id (runOps_not_present cfg hash storageDir date ops _
        ((newestFirst s sess.channelId).getD (i - 1).toNat dummyRecord).id
        ?_ ?_ ?_ r' h2)
      · intro r hr
        exact hwf r (List.mem_filter.mp hr).1
      · exact hwf _ hmemtab
      · intro r hr
        have hb := (List.mem_filter.mp hr).2
        simpa using hb

theorem savedFilePath_inj {storageDir date m1 e1 m2 e2 : String}
    (h : savedFilePath storageDir date m1 e1 = savedFilePath storageDir date m2 e2)
    (hl : m1.length = m2.length) : m1 = m2 := by
  have hd := congrArg String.data h
  simp only [savedFilePath, savedFileName, String.data_append, List.append_assoc] at hd
  have h1 := List.append_cancel_left hd
  have h2 := List.append_cancel_left h1
  have h3 := List.append_cancel_left h2
  have h4 := List.append_cancel_left h3
  exact String.ext (List.append_inj h4 hl).1

theorem savedFilePath_ne_of_hash_ne {storageDir date m1 e1 m2 e2 : String}
    (hm : m1 ≠ m2) (h1 : m1.length = 32) (h2 : m2.length = 32) :
    savedFilePath storageDir date m1 e1 ≠ savedFilePath storageDir date m2 e2 :=
  fun h => hm (savedFilePath_inj h (by rw [h1, h2]))

theorem hashNe_take {hash : Bytes → String} {cs : List Bytes}
    (hdist : (cs.map hash).Pairwise (fun a b => a ≠ b)) {k : Nat} (hk : k < cs.length) :
    ∀ x ∈ cs.take k, hash x ≠ hash (cs.get ⟨k, hk⟩) := by
  intro x hx
  have hsplit : cs.map hash = (cs.take k).map hash ++ (cs.drop k).map hash := by
    rw [← List.map_append, List.take_append_drop]
  rw [hsplit] at hdist
  refine (List.pairwise_append.mp hdist).2.2 (hash x) (List.mem_map_of_mem hash hx)
    (hash (cs.get ⟨k, hk⟩)) (List.mem_map_of_mem hash ?_)
  rw [List.drop_eq_get_cons hk]
  exact List.mem_cons_self _ _

theorem hashNe_of_get {hash : Bytes → String} {cs : List Bytes}
    (hdist : (cs.map hash).Pairwise (fun a b => a ≠ b)) {i j : Nat}
    (hi : i < cs.length) (hj : j < cs.length) (hij : i ≠ j) :
    hash (cs.get ⟨i, hi⟩) ≠ hash (cs.get ⟨j, hj⟩) := by
  have hp := List.pairwise_iff_get.mp hdist
  have hlm : (cs.map hash).length = cs.length := List.length_map _ _
  rcases Nat.lt_trichotomy i j with h | h | h
  · have hr := hp ⟨i, by omega⟩ ⟨j, by omega⟩ (by simpa using h)
    simpa [List.get_map] using hr
  · exact absurd h hij
  · have hr := hp ⟨j, by omega⟩ ⟨i, by omega⟩ (by simpa using h)
    have hr2 : hash (cs.get ⟨j, hj⟩) ≠ hash (cs.get ⟨i, hi⟩) := by
      simpa [List.get_map] using hr
    exact fun he => hr2 he.symm

theorem fsRead_of_mem_uniq {entries : List (String × Bytes)} {p : String} {b : Bytes}
    (hmem : (p, b) ∈ entries)
    (huniq : ∀ e ∈ entries, e.1 = p → e = (p, b)) :
    fsRead entries p = some b := by
  induction entries with
  | nil => cases hmem
  | cons e es ih =>
    by_cases he : e.1 = p
    · have heq : e = (p, b) := huniq e (by simp) he
      subst heq
      simp [fsRead, List.find?]
    · rw [show fsRead (e :: es) p = fsRead es p by
        simp only [fsRead]
        rw [List.find?_cons_of_neg _ (by simpa using he)]]
      refine ih ?_ (fun e2 he2 hp2 => huniq e2 (by simp [he2]) hp2)
      rcases List.mem_cons.mp hmem with heq | hmem2
      · exact absurd (congrArg Prod.fst heq.symm) he
      · exact hmem2

theorem fsRead_eq_none_of_keys {entries : List (String × Bytes)} {p : String}
    (h : ∀ e ∈ entries, e.1 ≠ p) : fsRead entries p = none := by
  simp only [fsRead, Option.map_eq_none', List.find?_eq_none]
  intro e he
  simpa using h e he

theorem fsWrite_of_not_mem {fs : List (String × Bytes)} {p : String} {b : Bytes}
    (h : ∀ e ∈ fs, e.1 ≠ p) : fsWrite fs p b = (p, b) :: fs := by
  unfold fsWrite
  congr 1
  apply List.filter_eq_self.mpr
  intro e he
  simpa using h e he

theorem pairwise_fst_lt_enumFrom {α : Type} (n : Nat) (l : List α) :
    (l.enumFrom n).Pairwise (fun a b => a.1 < b.1) := by
  induction l generalizing n with
  | nil => exact List.Pairwise.nil
  | cons x xs ih =>
    refine List.pairwise_cons.mpr ⟨?_, ih (n + 1)⟩
    rintro ⟨i, y⟩ hy
    have := (List.mem_enumFrom hy).1
    simpa using this

theorem kept_window_mem {cs : List Bytes} {k m : Nat} (hk : k ≤ cs.length)
    {ic : Nat × Bytes} (h : ic ∈ ((cs.take k).drop m).enumFrom m) :
    m ≤ ic.1 ∧ ic.1 < k ∧ ic.2 ∈ cs.take k ∧
    ∀ hik : ic.1 < cs.length, ic.2 = cs.get ⟨ic.1, hik⟩ := by
  obtain ⟨i, b⟩ := ic
  have hm := List.mem_enumFrom h
  have hlt : (List.take k cs).length = k := by
    rw [List.length_take]
    omega
  have hld : (List.drop m (List.take k cs)).length = k - m := by
    rw [List.length_drop, hlt]
  have hi1 : m ≤ i := hm.1
  have hi2 : i < k := by
    have := hm.2.1
    omega
  have hb := hm.2.2
  have hb2 : b = (List.take k cs).get ⟨i, by omega⟩ := by
    rw [List.get_eq_getElem, hb, List.getElem_drop]
    congr 1
    show m + (i - m) = i
    omega
  refine ⟨hi1, hi2, ?_, ?_⟩
  · rw [hb2]
    exact List.get_mem _ _ _
  · intro hik
    rw [hb2, List.get_eq_getElem, List.get_eq_getElem, List.getElem_take]

theorem scenarioKept_mem {cfg : Config} {cs : List Bytes} {k : Nat} (hk : k ≤ cs.length)
    {ic : Nat × Bytes} (h : ic ∈ scenarioKept cfg cs k) :
    k - cfg.albumMaxSize ≤ ic.1 ∧ ic.1 < k ∧ ic.2 ∈ cs.take k ∧
    ∀ hik : ic.1 < cs.length, ic.2 = cs.get ⟨ic.1, hik⟩ :=
  kept_window_mem hk h

theorem stateAfter_channelRecords (cfg : Config) (hash : Bytes → String)
    (storageDir date : String) (sess : SessionInfo) (src : String) (cs : List Bytes)
    (k : Nat) :
    channelRecords (stateAfter cfg hash storageDir date sess src cs k) sess.channelId =
      (scenarioKept cfg cs k).map (scenarioRow hash storageDir date sess src) := by
  apply List.filter_eq_self.mpr
  intro r hr
  obtain ⟨ic, -, rfl⟩ := List.mem_map.mp hr
  simp [scenarioRow, mkRow]

theorem stateAfter_pairwise_createdAt (cfg : Config) (hash : Bytes → String)
    (storageDir date : String) (sess : SessionInfo) (src : String) (cs : List Bytes)
    (k : Nat) :
    ((scenarioKept cfg cs k).map (scenarioRow hash storageDir date sess src)).Pairwise
      (fun a b => a.createdAt < b.createdAt) := by
  refine List.Pairwise.map _ ?_ (pairwise_fst_lt_enumFrom _ _)
  intro a b hab
  simpa [scenarioRow, mkRow] using hab

theorem stateAfter_zero (cfg : Config) (hash : Bytes → String) (storageDir date : String)
    (sess : SessionInfo) (src : String) (cs : List Bytes) :
    stateAfter cfg hash storageDir date sess src cs 0 = emptyState := by
  have h : scenarioKept cfg cs 0 = [] := by
    simp [scenarioKept]
  simp [stateAfter, h, emptyState]

theorem ingestItem_stored_explicit (cfg : Config) (hash : Bytes → String)
    (storageDir date : String) (sess : SessionInfo) (src : String) (c : Bytes)
    (f : Bool) (s : StoreState)
    (hnodup : channelHashRecords s sess.channelId (hash c) = []) :
    (ingestItem cfg hash storageDir date sess src c f true s).state =
      { table := (checkAndCleanAlbum cfg sess.channelId s).table ++
          [mkRow hash storageDir date sess src c
            (checkAndCleanAlbum cfg sess.channelId s).nextId
            (checkAndCleanAlbum cfg sess.channelId s).now],
        nextId := (checkAndCleanAlbum cfg sess.channelId s).nextId + 1,
        fs := fsWrite (checkAndCleanAlbum cfg sess.channelId s).fs
          (savedFilePath storageDir date (hash c) (getExtFromMime (detectMime c))) c,
        now := (checkAndCleanAlbum cfg sess.channelId s).now + 1 } := by
  rw [ingestItem_stored cfg hash storageDir date sess src c f s hnodup]

theorem scenario_step (cfg : Config) (hash : Bytes → String) (storageDir date : String)
    (sess : SessionInfo) (src : String) (cs : List Bytes) (f : Bool) (k : Nat)
    (hM : 1 ≤ cfg.albumMaxSize)
    (hk : k < cs.length)
    (hdist : (cs.map hash).Pairwise (fun a b => a ≠ b))
    (hlen32 : ∀ b : Bytes, (hash b).length = 32) :
    (ingestItem cfg hash storageDir date sess src (cs.get ⟨k, hk⟩) f true
        (stateAfter cfg hash storageDir date sess src cs k)).state =
      stateAfter cfg hash storageDir date sess src cs (k + 1) := by
  have hnodup : channelHashRecords (stateAfter cfg hash storageDir date sess src cs k)
      sess.channelId (hash (cs.get ⟨k, hk⟩)) = [] := by
    rw [channelHashRecords]
    apply List.filter_eq_nil.mpr
    intro r hr
    obtain ⟨ic, hic, rfl⟩ := List.mem_map.mp hr
    have hm := scenarioKept_mem (le_of_lt hk) hic
    have hne := hashNe_take hdist hk ic.2 hm.2.2.1
    have hne2 : (hash ic.2 == hash cs[k]) = false :=
      beq_eq_false_iff_ne.mpr (by simpa using hne)
    simp [scenarioRow, mkRow, hne2]
  rw [ingestItem_stored_explicit cfg hash storageDir date sess src _ f _ hnodup]
  rcases Nat.lt_or_ge k cfg.albumMaxSize with hlt | hge
  · -- below capacity: no eviction
    have hclean : checkAndCleanAlbum cfg sess.channelId
        (stateAfter cfg hash storageDir date sess src cs k) =
        stateAfter cfg hash storageDir date sess src cs k := by
      apply checkAndCleanAlbum_of_lt
      rw [newestFirst, stateAfter_channelRecords, length_sortByCreatedAtDesc,
        List.length_map]
      have hkl : (scenarioKept cfg cs k).length = k - (k - cfg.albumMaxSize) := by
        rw [scenarioKept, List.enumFrom_length, List.length_drop, List.length_take]
        omega
      rw [hkl]
      omega
    rw [hclean]
    have hkept : scenarioKept cfg cs (k + 1) =
        scenarioKept cfg cs k ++ [(k, cs.get ⟨k, hk⟩)] := by
      rw [scenarioKept, scenarioKept]
      have h1 : k + 1 - cfg.albumMaxSize = 0 := by omega
      have h2 : k - cfg.albumMaxSize = 0 := by omega
      rw [h1, h2, List.drop_zero, List.drop_zero, List.take_succ,
        List.getElem?_eq_getElem hk, List.enumFrom_append]
      have h3 : 0 + (cs.take k).length = k := by
        rw [List.length_take]
        omega
      rw [h3]
      simp [List.get_eq_getElem]
    have hfresh : ∀ e ∈ ((scenarioKept cfg cs k).map
        (scenarioEntry hash storageDir date)).reverse,
        e.1 ≠ savedFilePath storageDir date (hash (cs.get ⟨k, hk⟩))
          (getExtFromMime (detectMime (cs.get ⟨k, hk⟩))) := by
      intro e he
      rw [List.mem_reverse] at he
      obtain ⟨ic, hic, rfl⟩ := List.mem_map.mp he
      have hm := scenarioKept_mem (le_of_lt hk) hic
      exact savedFilePath_ne_of_hash_ne (hashNe_take hdist hk ic.2 hm.2.2.1)
        (hlen32 _) (hlen32 _)
    simp only [stateAfter, StoreState.mk.injEq]
    refine ⟨?_, by trivial, ?_, by trivial⟩
    · rw [hkept, List.map_append]
      rfl
    · rw [fsWrite_of_not_mem hfresh, hkept, List.map_append, List.reverse_append]
      rfl
  · -- at capacity: evict the oldest record, then insert
    have hdlt : k - cfg.albumMaxSize < (cs.take k).length := by
      rw [List.length_take]
      omega
    have hdecomp : scenarioKept cfg cs k =
        (k - cfg.albumMaxSize, (cs.take k).get ⟨k - cfg.albumMaxSize, hdlt⟩) ::
          ((cs.take k).drop (k - cfg.albumMaxSize + 1)).enumFrom
            (k - cfg.albumMaxSize + 1) := by
      rw [scenarioKept, List.drop_eq_get_cons hdlt]
      rfl
    have hvget : (cs.take k).get ⟨k - cfg.albumMaxSize, hdlt⟩ =
        cs.get ⟨k - cfg.albumMaxSize, by omega⟩ := by
      rw [List.get_eq_getElem, List.get_eq_getElem, List.getElem_take]
    have hnf : newestFirst (stateAfter cfg hash storageDir date sess src cs k)
        sess.channelId =
        ((scenarioKept cfg cs k).map (scenarioRow hash storageDir date sess src)).reverse := by
      rw [newestFirst, stateAfter_channelRecords]
      exact sortByCreatedAtDesc_eq_reverse
        (stateAfter_pairwise_createdAt cfg hash storageDir date sess src cs k)
    have hkl : (scenarioKept cfg cs k).length = cfg.albumMaxSize := by
      rw [scenarioKept, List.enumFrom_length, List.length_drop, List.length_take]
      omega
    have hrestmem : ∀ ic ∈ ((cs.take k).drop (k - cfg.albumMaxSize + 1)).enumFrom
        (k - cfg.albumMaxSize + 1),
        k - cfg.albumMaxSize + 1 ≤ ic.1 ∧ ic.1 < k ∧ ic.2 ∈ cs.take k ∧
        ∀ hik : ic.1 < cs.length, ic.2 = cs.get ⟨ic.1, hik⟩ :=
      fun ic hic => kept_window_mem (le_of_lt hk) hic
    have hclean : checkAndCleanAlbum cfg sess.channelId
        (stateAfter cfg hash storageDir date sess src cs k) =
        { table := (((cs.take k).drop (k - cfg.albumMaxSize + 1)).enumFrom
            (k - cfg.albumMaxSize + 1)).map (scenarioRow hash storageDir date sess src),
          nextId := k + 1,
          fs := ((((cs.take k).drop (k - cfg.albumMaxSize + 1)).enumFrom
            (k - cfg.albumMaxSize + 1)).map (scenarioEntry hash storageDir date)).reverse,
          now := k } := by
      unfold checkAndCleanAlbum
      rw [hnf]
      rw [if_pos (by rw [List.length_reverse, List.length_map, hkl])]
      have hrl : ((((cs.take k).drop (k - cfg.albumMaxSize + 1)).enumFrom
          (k - cfg.albumMaxSize + 1)).map
            (scenarioRow hash storageDir date sess src)).reverse.length =
          cfg.albumMaxSize - 1 := by
        rw [List.length_reverse, List.length_map, List.enumFrom_length,
          List.length_drop, List.length_take]
        omega
      rw [hdecomp]
      simp only [List.map_cons, List.reverse_cons]
      rw [← hrl, List.drop_left]
      show evictOne (stateAfter cfg hash storageDir date sess src cs k) _ = _
      unfold evictOne
      simp only [stateAfter, StoreState.mk.injEq]
      refine ⟨?_, by trivial, ?_, by trivial⟩
      · -- the table filter removes exactly the oldest row
        rw [hdecomp, List.map_cons]
        rw [List.filter_cons_of_neg (by simp)]
        apply List.filter_eq_self.mpr
        intro r hr
        obtain ⟨ic, hic, rfl⟩ := List.mem_map.mp hr
        have hm := hrestmem ic hic
        have : (scenarioRow hash storageDir date sess src ic).id ≠
            (scenarioRow hash storageDir date sess src
              (k - cfg.albumMaxSize, (cs.take k).get ⟨k - cfg.albumMaxSize, hdlt⟩)).id := by
          simp only [scenarioRow, mkRow]
          omega
        simpa using this
      · -- the blob delete removes exactly the oldest blob
        rw [hdecomp, List.map_cons, List.reverse_cons]
        unfold fsDelete
        rw [List.filter_append]
        have hone : List.filter (fun e => e.1 != (scenarioRow hash storageDir date sess src
            (k - cfg.albumMaxSize, (cs.take k).get ⟨k - cfg.albumMaxSize, hdlt⟩)).filePath)
            [scenarioEntry hash storageDir date
              (k - cfg.albumMaxSize, (cs.take k).get ⟨k - cfg.albumMaxSize, hdlt⟩)] = [] := by
          simp [scenarioEntry, scenarioRow, mkRow]
        rw [hone, List.append_nil]
        apply List.filter_eq_self.mpr
        intro e he
        rw [List.mem_reverse] at he
        obtain ⟨ic, hic, rfl⟩ := List.mem_map.mp he
        have hm := hrestmem ic hic
        have hlk : ic.1 < cs.length := by omega
        have hcontent := hm.2.2.2 hlk
        have hne : hash ic.2 ≠ hash ((cs.take k).get ⟨k - cfg.albumMaxSize, hdlt⟩) := by
          rw [hcontent, hvget]
          exact hashNe_of_get hdist hlk (by omega) (by omega)
        have hpathne : savedFilePath storageDir date (hash ic.2)
            (getExtFromMime (detectMime ic.2)) ≠
            savedFilePath storageDir date
              (hash ((cs.take k).get ⟨k - cfg.albumMaxSize, hdlt⟩))
              (getExtFromMime (detectMime
                ((cs.take k).get ⟨k - cfg.albumMaxSize, hdlt⟩))) :=
          savedFilePath_ne_of_hash_ne hne (hlen32 _) (hlen32 _)
        simpa [scenarioEntry, scenarioRow, mkRow] using hpathne
    rw [hclean]
    have hkept2 : scenarioKept cfg cs (k + 1) =
        ((cs.take k).drop (k - cfg.albumMaxSize + 1)).enumFrom
          (k - cfg.albumMaxSize + 1) ++ [(k, cs.get ⟨k, hk⟩)] := by
      rw [scenarioKept]
      have h1 : k + 1 - cfg.albumMaxSize = (k - cfg.albumMaxSize) + 1 := by omega
      rw [h1, List.take_succ, List.getElem?_eq_getElem hk,
        List.drop_append_of_le_length (by rw [List.length_take]; omega),
        List.enumFrom_append]
      have h2 : (k - cfg.albumMaxSize + 1) +
          ((cs.take k).drop (k - cfg.albumMaxSize + 1)).length = k := by
        rw [List.length_drop, List.length_take]
        omega
      rw [h2]
      simp [List.get_eq_getElem]
    have hfresh2 : ∀ e ∈ ((((cs.take k).drop (k - cfg.albumMaxSize + 1)).enumFrom
        (k - cfg.albumMaxSize + 1)).map (scenarioEntry hash storageDir date)).reverse,
        e.1 ≠ savedFilePath storageDir date (hash (cs.get ⟨k, hk⟩))
          (getExtFromMime (detectMime (cs.get ⟨k, hk⟩))) := by
      intro e he
      rw [List.mem_reverse] at he
      obtain ⟨ic, hic, rfl⟩ := List.mem_map.mp he
      have hm := hrestmem ic hic
      exact savedFilePath_ne_of_hash_ne (hashNe_take hdist hk ic.2 hm.2.2.1)
        (hlen32 _) (hlen32 _)
    simp only [stateAfter, StoreState.mk.injEq]
    refine ⟨?_, by trivial, ?_, by trivial⟩
    · rw [hkept2, List.map_append]
      rfl
    · rw [fsWrite_of_not_mem hfresh2, hkept2, List.map_append, List.reverse_append]
      rfl

theorem ingestList_append (cfg : Config) (hash : Bytes → String)
    (storageDir date : String) (sess : SessionInfo) (src : String) (f e : Bool)
    (l1 l2 : List Bytes) (s : StoreState) :
    ingestList cfg hash storageDir date sess src f e (l1 ++ l2) s =
      ingestList cfg hash storageDir date sess src f e l2
        (ingestList cfg hash storageDir date sess src f e l1 s) := by
  induction l1 generalizing s with
  | nil => rfl
  | cons c l ih =>
    simp only [List.cons_append, ingestList]
    exact ih _

theorem scenario_run (cfg : Config) (hash : Bytes → String) (storageDir date : String)
    (sess : SessionInfo) (src : String) (cs : List Bytes) (f : Bool)
    (hM : 1 ≤ cfg.albumMaxSize)
    (hdist : (cs.map hash).Pairwise (fun a b => a ≠ b))
    (hlen32 : ∀ b : Bytes, (hash b).length = 32) :
    ∀ k, k ≤ cs.length →
      ingestList cfg hash storageDir date sess src f true (cs.take k) emptyState =
        stateAfter cfg hash storageDir date sess src cs k := by
  intro k
  induction k with
  | zero =>
    intro _
    rw [List.take_zero]
    exact (stateAfter_zero cfg hash storageDir date sess src cs).symm
  | succ k ih =>
    intro hk1
    have hk : k < cs.length := by omega
    rw [List.take_succ, List.getElem?_eq_getElem hk]
    rw [show (some cs[k]).toList = [cs[k]] from rfl]
    rw [ingestList_append, ih (by omega)]
    show (ingestItem cfg hash storageDir date sess src cs[k] f true
      (stateAfter cfg hash storageDir date sess src cs k)).state =
      stateAfter cfg hash storageDir date sess src cs (k + 1)
    have hstep := scenario_step cfg hash storageDir date sess src cs f k hM hk hdist hlen32
    simpa [List.get_eq_getElem] using hstep

/-- C2: ingesting `N` distinct contents sequentially (each delivery
succeeding) into one channel of the empty store, with capacity bound
`M = albumMaxSize` and `N > M`, leaves the channel with exactly `M`
records, and they are exactly the rows of the `M` most recently ingested
contents (newest last); the blobs of the retained contents are on disk
while every evicted content's blob has been deleted — before each insert,
once the count reaches `M`, the governor evicts oldest-first (blob, then
row) until one slot is free. -/
theorem capacity_bound (cfg : Config) (hash : Bytes → String) (storageDir date : String)
    (sess : SessionInfo) (src : String) (f : Bool) (cs : List Bytes)
    (hM : 1 ≤ cfg.albumMaxSize)
    (hN : cfg.albumMaxSize < cs.length)
    (hdist : (cs.map hash).Pairwise (fun a b => a ≠ b))
    (hlen32 : ∀ b : Bytes, (hash b).length = 32) :
    (channelRecords (ingestList cfg hash storageDir date sess src f true cs emptyState)
        sess.channelId).length = cfg.albumMaxSize ∧
    (channelRecords (ingestList cfg hash storageDir date sess src f true cs emptyState)
        sess.channelId).map (fun r => r.md5) =
      (cs.drop (cs.length - cfg.albumMaxSize)).map hash ∧
    (∀ b ∈ cs.drop (cs.length - cfg.albumMaxSize),
      fsRead (ingestList cfg hash storageDir date sess src f true cs emptyState).fs
        (savedFilePath storageDir date (hash b) (getExtFromMime (detectMime b))) =
        some b) ∧
    (∀ b ∈ cs.take (cs.length - cfg.albumMaxSize),
      fsRead (ingestList cfg hash storageDir date sess src f true cs emptyState).fs
        (savedFilePath storageDir date (hash b) (getExtFromMime (detectMime b))) =
        none) := by
  have hfin : ingestList cfg hash storageDir date sess src f true cs emptyState =
      stateAfter cfg hash storageDir date sess src cs cs.length := by
    have h := scenario_run cfg hash storageDir date sess src cs f hM hdist hlen32
      cs.length le_rfl
    rwa [List.take_length] at h
  have hnd : (cs.map hash).Nodup := hdist
  have hkeptlen : scenarioKept cfg cs cs.length =
      (cs.drop (cs.length - cfg.albumMaxSize)).enumFrom
        (cs.length - cfg.albumMaxSize) := by
    rw [scenarioKept, List.take_length]
  refine ⟨?_, ?_, ?_, ?_⟩
  · rw [hfin, stateAfter_channelRecords, List.length_map, hkeptlen,
      List.enumFrom_length, List.length_drop]
    omega
  · rw [hfin, stateAfter_channelRecords, List.map_map, hkeptlen]
    have hfun : ((fun r => r.md5) ∘ scenarioRow hash storageDir date sess src) =
        (fun ic : Nat × Bytes => hash ic.2) := by
      funext ic
      simp [scenarioRow, mkRow]
    rw [hfun]
    rw [show (fun ic : Nat × Bytes => hash ic.2) = hash ∘ Prod.snd from rfl,
      ← List.map_map, List.enumFrom_map_snd]
  · intro b hb
    rw [hfin]
    show fsRead (((scenarioKept cfg cs cs.length).map
      (scenarioEntry hash storageDir date)).reverse) _ = some b
    have hbmem : b ∈ List.map Prod.snd (scenarioKept cfg cs cs.length) := by
      rw [hkeptlen, List.enumFrom_map_snd]
      exact hb
    obtain ⟨ic, hic, hicb⟩ := List.mem_map.mp hbmem
    apply fsRead_of_mem_uniq
    · rw [List.mem_reverse]
      have : scenarioEntry hash storageDir date ic =
          (savedFilePath storageDir date (hash b) (getExtFromMime (detectMime b)), b) := by
        rw [scenarioEntry, hicb]
      exact this ▸ List.mem_map_of_mem _ hic
    · intro e he hekey
      rw [List.mem_reverse] at he
      obtain ⟨ic2, hic2, rfl⟩ := List.mem_map.mp he
      have hkey : savedFilePath storageDir date (hash ic2.2)
          (getExtFromMime (detectMime ic2.2)) =
          savedFilePath storageDir date (hash b) (getExtFromMime (detectMime b)) := hekey
      have hhash : hash ic2.2 = hash b :=
        savedFilePath_inj hkey (by rw [hlen32, hlen32])
      have hic2cs : ic2.2 ∈ cs := by
        have hm := scenarioKept_mem le_rfl hic2
        rw [List.take_length] at hm
        exact hm.2.2.1
      have hbcs : b ∈ cs := List.mem_of_mem_drop hb
      have : ic2.2 = b := List.inj_on_of_nodup_map hnd hic2cs hbcs hhash
      rw [scenarioEntry, this]
  · intro b hb
    rw [hfin]
    show fsRead (((scenarioKept cfg cs cs.length).map
      (scenarioEntry hash storageDir date)).reverse) _ = none
    apply fsRead_eq_none_of_keys
    intro e he
    rw [List.mem_reverse] at he
    obtain ⟨ic, hic, rfl⟩ := List.mem_map.mp he
    have hm := scenarioKept_mem le_rfl hic
    have hlo := hm.1
    have hlk : ic.1 < cs.length := by
      have := hm.2.1
      omega
    have hcontent := hm.2.2.2 hlk
    obtain ⟨⟨j, hj⟩, hjb⟩ := List.mem_iff_get.mp hb
    have hjlen : j < cs.length := by
      have := hj
      rw [List.length_take] at this
      omega
    have hjlt : j < cs.length - cfg.albumMaxSize := by
      have := hj
      rw [List.length_take] at this
      omega
    have hbj : b = cs.get ⟨j, hjlen⟩ := by
      rw [← hjb, List.get_eq_getElem, List.get_eq_getElem, List.getElem_take]
    have hne : hash ic.2 ≠ hash b := by
      rw [hcontent, hbj]
      exact hashNe_of_get hdist hlk hjlen (by omega)
    exact savedFilePath_ne_of_hash_ne hne (hlen32 _) (hlen32 _)

/-- C3 witness: the permission theorem applied to the concrete admin
session. -/
theorem permission_gate_correct_witness :
    checkUserPermission sampleSess = specPermissionLevel sampleSess :=
  (permission_gate_correct sampleCfg sampleSess).1

/-- C7 witness: the amended fingerprint theorem applied at the PNG magic
bytes and at the high-bit RIFF bytes. -/
theorem fingerprint_total_function_witness :
    detectMime [137, 80, 78, 71] = "image/png" ∧
    detectMime [210, 73, 70, 70] = "image/webp" :=
  ⟨(fingerprint_total_function [137, 80, 78, 71]).1.mpr (by decide),
   (fingerprint_total_function [210, 73, 70, 70]).2.2.2.1.mpr (by decide)⟩

/-- C6 witness: the index theorem applied to the concrete one-record
store, once with an out-of-range index and once with index 1. -/
theorem index_bounds_and_delete_witness :
    (sendEmoji sampleCfg sampleSess 5 true true sampleState).outcome =
      SendOutcome.outOfRange (newestFirst sampleState sampleSess.channelId).length ∧
    (channelRecords (deleteEmoji sampleCfg sampleSess 1 sampleState).1
        sampleSess.channelId).length + 1 =
      (channelRecords sampleState sampleSess.channelId).length :=
  ⟨(index_bounds_and_delete sampleCfg sampleHash "dir" "2024-01-01" sampleSess 5 true true
      sampleState (by decide) (by decide) (by decide) (by decide)).1.mpr (by decide),
   ((index_bounds_and_delete sampleCfg sampleHash "dir" "2024-01-01" sampleSess 1 true true
      sampleState (by decide) (by decide) (by decide) (by decide)).2.2.2 (by decide)).1⟩

/-- C2 witness: the capacity theorem applied with capacity 1 and two
distinct concrete contents. -/
theorem capacity_bound_witness :
    (channelRecords (ingestList capacityCfg sampleHash "dir" "2024-01-01" sampleSess "m1"
        true true [[0], [1]] emptyState) sampleSess.channelId).length =
      capacityCfg.albumMaxSize :=
  (capacity_bound capacityCfg sampleHash "dir" "2024-01-01" sampleSess "m1" true
    [[0], [1]] (by decide) (by decide) (by decide) (fun b => rfl)).1

end StickerConvert
